import Mathlib

/-!
Verification of the focal-plane assembly engine of `azcam/image.py`
(class `Image`, methods `assemble` and `set_scaling`).

The embedding below translates the Python/numpy code directly:

* pixel values are exact rationals (`Pix := ℚ`), abstracting only the
  floating-point rounding of the original;
* Python integers are `Int`/`Nat` (they are arbitrary precision);
* numpy 1-D slicing, `numpy.resize`, `ndarray.reshape` and slice assignment
  are modelled by `pySlice`, `Buf.resize`, `Buf.reshape` and `Buf.writeSeg`;
* exceptions are modelled with `Except`; an error carries the image state at
  the moment of the raise, so "state untouched on failure" is expressible.
-/

namespace Azcam

/-- Pixel values.  The Python code computes in IEEE floating point; we model
pixel arithmetic with exact rationals, abstracting floating-point rounding. -/
abbrev Pix := ℚ

/-- Errors raised on the modelled code paths: `azcam.exceptions.AzcamError`
with its message, and the Python built-in `IndexError`. -/
inductive PyError where
  | azcamError (msg : String)
  | indexError
deriving Repr, DecidableEq

/-- Python list slicing `xs[a:b]` (step 1) with Python's negative-index and
clamping semantics; this is also the semantics of basic 1-D numpy slicing. -/
def pySlice (xs : List Pix) (a b : Int) : List Pix :=
  let n : Int := xs.length
  let a2 : Int := if a < 0 then max (n + a) 0 else min a n
  let b2 : Int := if b < 0 then max (n + b) 0 else min b n
  (xs.take b2.toNat).drop a2.toNat

/-- Python indexing `xs[i]`, negative indices counting from the end.
Out-of-range access raises `IndexError` in Python; it is modelled by the
default `d` (every verified path keeps the index in range). -/
def pyGetD {α : Type} (xs : List α) (i : Int) (d : α) : α :=
  if i < 0 then xs.getD (xs.length - (-i).toNat) d else xs.getD i.toNat d

/-- A numpy array buffer: a shape `(rows, cols)` plus contents indexed in that
shape.  Row-major flattening links `reshape`/`resize` to the 2-D indexing. -/
structure Buf where
  rows : Nat
  cols : Nat
  val : Nat → Nat → Pix

/-- Total element count (`ndarray.size`). -/
def Buf.size (b : Buf) : Nat := b.rows * b.cols

/-- Element `i` of the row-major flattening of the buffer. -/
def Buf.flat (b : Buf) (i : Nat) : Pix := b.val (i / b.cols) (i % b.cols)

/-- Allocation by `numpy.empty`: an uninitialized array; the indeterminate
contents are modelled as zeros. -/
def Buf.emptyBuf (r c : Nat) : Buf := ⟨r, c, fun _ _ => 0⟩

/-- Computation `numpy.resize(b, n)`: a 1-D array of length `n` filled with
`b`'s flattened data repeated cyclically (zeros if `b` is empty). -/
def Buf.resize (b : Buf) (n : Nat) : Buf :=
  ⟨1, n, fun _ c => if b.size = 0 then 0 else b.flat (c % b.size)⟩

/-- Computation `b.reshape((r, c))`: reinterpret the row-major flattening with
the new shape.  numpy raises on an element-count mismatch; every verified
path preserves the element count. -/
def Buf.reshape (b : Buf) (r c : Nat) : Buf := ⟨r, c, fun i j => b.flat (i * c + j)⟩

/-- Slice assignment `buffer[line][start : start + len(seg)] = seg`, with
numpy clipping the written slice at the row bounds.  (numpy raises a
broadcast error when the clipped slice length differs from `len(seg)`;
every verified path writes fully in bounds.) -/
def Buf.writeSeg (b : Buf) (line : Nat) (start : Int) (seg : List Pix) : Buf :=
  ⟨b.rows, b.cols, fun r c =>
    if r = line ∧ start ≤ (c : Int) ∧ (c : Int) < start + seg.length ∧ c < b.cols then
      seg.getD ((c : Int) - start).toNat 0
    else b.val r c⟩

/-- The focal-plane geometry fields of `azcam.image_focalplane.FocalPlane`
read by `Image.assemble` and `Image.set_scaling`. -/
structure FocalPlane where
  numcols_image : Nat
  numrows_image : Nat
  numcols_underscan : Nat
  numcols_overscan : Nat
  numrows_underscan : Nat
  numrows_overscan : Nat
  numamps_x : Nat
  numamps_y : Nat
  num_ser_amps_det : Nat
  num_par_amps_det : Nat
  numcols_amp : Nat
  numrows_amp : Nat
  numamps_image : Nat
  jpg_ext : List Nat
  amp_cfg : List Nat

/-- The fields of `azcam.image.Image` touched by `assemble` and
`set_scaling`.  Boolean 0/1 attributes are modelled as `Bool`;
`data` holds one flat pixel row per amplifier. -/
structure Image where
  is_valid : Bool
  assembled : Bool
  trimmed : Bool
  trim : Int
  from_file : Bool
  size_x : Nat
  size_y : Nat
  asmsize : Int × Int
  buffer : Buf
  data : List (List Pix)
  scales : List Pix
  offsets : List Pix
  lineLen : Int
  startLine : Int
  stopLine : Int
  num_extensions : Nat
  focalplane : FocalPlane

/-- Total element count of `self.data` (numpy `ndarray.size`). -/
def dataSize (d : List (List Pix)) : Nat := (d.map List.length).sum

/-- The loop-invariant inputs of the copy loops of `Image.assemble`
(source lines 246-283). -/
structure AsmCtx where
  data : List (List Pix)
  scales : List Pix
  offsets : List Pix
  jpg_ext : List Nat
  amp_cfg : List Nat
  num_ser : Nat
  num_par : Nat
  dstAmpX : Int
  dstAmpY : Int
  srcAmpX : Nat
  srcAmpY : Nat
  prescan1 : Nat
  prescan2 : Nat
  overscan2 : Nat
  lineLen : Int

/-- Elementwise calibration `(arr - Offsets[indx]) * Scales[indx]` applied to
a pixel segment (numpy broadcasting = `List.map`). -/
def calibSeg (ctx : AsmCtx) (indx : Int) (xs : List Pix) : List Pix :=
  xs.map (fun v => (v - pyGetD ctx.offsets indx 0) * pyGetD ctx.scales indx 0)

/-- The amplifier index `indx = Ext[currExt] - 1` resolved by the inner loop
of `Image.assemble`. -/
def ampIdx (ctx : AsmCtx) (currExt : Nat) : Int :=
  (ctx.jpg_ext.getD currExt 0 : Int) - 1

/-- The flip code `AmpFlip[indx]` of the amplifier of slot `currExt`. -/
def flipAt (ctx : AsmCtx) (currExt : Nat) : Nat :=
  pyGetD ctx.amp_cfg (ampIdx ctx currExt) 0

/-- The raw data row `self.data[indx]` of the amplifier of slot `currExt`. -/
def rowAt (ctx : AsmCtx) (currExt : Nat) : List Pix :=
  pyGetD ctx.data (ampIdx ctx currExt) []

/-- The calibrated pixel segment the flip dispatch of `Image.assemble`
produces for slot `currExt` at source line `srcLine`: the value of the
right-hand side of the slice assignment of the matching flip branch
(source lines 285-321), empty for a flip code outside {0,1,2,3} where no
branch matches. -/
def extSeg (ctx : AsmCtx) (srcLine : Int) (currExt : Nat) : List Pix :=
  let indx : Int := ampIdx ctx currExt
  let flip : Nat := flipAt ctx currExt
  if flip = 0 then
    let posX : Int := srcLine * ctx.srcAmpX + ctx.prescan1
    calibSeg ctx indx (pySlice (rowAt ctx currExt) posX (posX + ctx.dstAmpX))
  else if flip = 1 then
    let posX : Int := srcLine * ctx.srcAmpX + ctx.prescan1
    calibSeg ctx indx (pySlice (rowAt ctx currExt) posX (posX + ctx.dstAmpX)).reverse
  else if flip = 2 then
    let posX : Int := ((ctx.srcAmpY : Int) - srcLine - ctx.overscan2 - 1) * ctx.srcAmpX + ctx.prescan1
    calibSeg ctx indx (pySlice (rowAt ctx currExt) posX (posX + ctx.dstAmpX))
  else if flip = 3 then
    let posX : Int := ((ctx.srcAmpY : Int) - srcLine - ctx.prescan2 - 1) * ctx.srcAmpX + ctx.prescan1
    calibSeg ctx indx (pySlice (rowAt ctx currExt) posX (posX + ctx.dstAmpX)).reverse
  else []

/-- Body of the innermost loop of `Image.assemble` (source lines 275-321):
copy one amplifier's line segment into the assembled buffer, advancing
`lineStart` by `self.lineLen`.  The four flip branches mirror the four
`if flip == _:` blocks; a flip code outside {0,1,2,3} matches none of them
and leaves the state unchanged. -/
def copyExt (ctx : AsmCtx) (line : Nat) (srcLine : Int) (currExt : Nat)
    (st : Int × Buf) : Int × Buf :=
  let flip : Nat := flipAt ctx currExt
  if flip = 0 ∨ flip = 1 ∨ flip = 2 ∨ flip = 3 then
    (st.1 + ctx.lineLen, st.2.writeSeg line st.1 (extSeg ctx srcLine currExt))
  else st

/-- The `for currExt in range(extBase, extBase + num_ser_amps_det)` loop of
`Image.assemble`, starting from `lineStart = 0`. -/
def copyLine (ctx : AsmCtx) (line : Nat) (srcLine : Int) (extBase : Nat) (buf : Buf) : Buf :=
  ((List.range' extBase ctx.num_ser).foldl
    (fun st e => copyExt ctx line srcLine e st) (0, buf)).2

/-- The `for line in range(parAmps * dstAmpY, parAmps * dstAmpY + dstAmpY)`
loop of `Image.assemble`, with `srcLine` starting at `prescan2` and stepping
by one per destination line. -/
def copyPar (ctx : AsmCtx) (parAmps : Nat) (buf : Buf) : Buf :=
  ((List.range' (parAmps * ctx.dstAmpY.toNat) ctx.dstAmpY.toNat).foldl
    (fun st line => (st.1 + 1, copyLine ctx line st.1 (parAmps * ctx.num_ser) st.2))
    ((ctx.prescan2 : Int), buf)).2

/-- The outer `for parAmps in range(0, num_par_amps_det)` loop of
`Image.assemble`. -/
def assembleLoops (ctx : AsmCtx) (buf : Buf) : Buf :=
  (List.range ctx.num_par).foldl (fun b p => copyPar ctx p b) buf

/-- The loop inputs `Image.assemble` computes from the geometry, the trim
request and the calibration arrays (source lines 202-263). -/
def asmCtx (s : Image) (trim : Int) : AsmCtx :=
  let fp := s.focalplane
  let prescan1 : Nat := if trim = 1 then fp.numcols_underscan else 0
  let overscan1 : Nat := if trim = 1 then fp.numcols_overscan else 0
  let prescan2 : Nat := if trim = 1 then fp.numrows_underscan else 0
  let overscan2 : Nat := if trim = 1 then fp.numrows_overscan else 0
  { data := s.data
    scales := s.scales
    offsets := s.offsets
    jpg_ext := fp.jpg_ext
    amp_cfg := fp.amp_cfg
    num_ser := fp.num_ser_amps_det
    num_par := fp.num_par_amps_det
    dstAmpX := (fp.numcols_amp : Int) - prescan1 - overscan1
    dstAmpY := (fp.numrows_amp : Int) - prescan2 - overscan2
    srcAmpX := fp.numcols_amp
    srcAmpY := fp.numrows_amp
    prescan1 := prescan1
    prescan2 := prescan2
    overscan2 := overscan2
    lineLen := (fp.numcols_amp : Int) - prescan1 - overscan1 }

/-- The assembled-size update of `Image.assemble` (source lines 205-239):
with `trim == 1` the full raw size is reduced by `numamps` times the margin
widths per axis (the `num_under`/`num_over` computation of lines 213-223);
any other `trim` value keeps `(size_x, size_y)` and never consults the
stored `self.trim` attribute. -/
def asmSize (s : Image) (trim : Int) : Int × Int :=
  if trim = 1 then
    ((s.size_x : Int) - s.focalplane.numamps_x * s.focalplane.numcols_overscan
        - s.focalplane.numamps_x * s.focalplane.numcols_underscan,
     (s.size_y : Int) - s.focalplane.numamps_y * s.focalplane.numrows_overscan
        - s.focalplane.numamps_y * s.focalplane.numrows_underscan)
  else ((s.size_x : Int), (s.size_y : Int))

/-- The buffer after the reallocation of source lines 192-200: `numpy.empty`
of shape `(size_y, size_x)` when the image was not read from a file, else the
existing buffer. -/
def asmBuf0 (s : Image) : Buf :=
  if s.from_file = false then Buf.emptyBuf s.size_y s.size_x else s.buffer

/-- The buffer entering the copy loops (source lines 227-244): resized and
reshaped to the assembled size with `trim == 1`, or - untrimmed - only when
the data and buffer element counts disagree. -/
def asmBuf3 (s : Image) (trim : Int) : Buf :=
  let asm := asmSize s trim
  if trim = 1 then
    ((asmBuf0 s).resize (asm.1 * asm.2).toNat).reshape asm.2.toNat asm.1.toNat
  else if dataSize s.data ≠ (asmBuf0 s).size then
    ((asmBuf0 s).resize (asm.1 * asm.2).toNat).reshape asm.2.toNat asm.1.toNat
  else asmBuf0 s

/-- The image state produced by a run of the main body of `Image.assemble`
(source lines 187-335): updated assembled size, the `lineLen`, `startLine`
and `stopLine` attributes, the copy loops over the prepared buffer followed
by the final reshape to `(asmsize[1], asmsize[0])`, the `assembled` flag,
and the `trimmed` flag which is set only when `trim == 1` and never
cleared.  The transient `self.asmsize = (numcols_image, numrows_image)`
store of source line 188 is unconditionally overwritten by lines 223/237
and is therefore not represented. -/
def assembleResult (s : Image) (trim : Int) : Image :=
  let ctx := asmCtx s trim
  let asm := asmSize s trim
  { s with
    asmsize := asm
    lineLen := ctx.lineLen
    startLine := (ctx.prescan2 : Int)
    stopLine := (s.focalplane.numrows_amp : Int) - ctx.prescan2 - ctx.overscan2
    buffer := (assembleLoops ctx (asmBuf3 s trim)).reshape asm.2.toNat asm.1.toNat
    assembled := true
    trimmed := if trim = 1 then true else s.trimmed }

/-- Model of `Image.assemble(self, trim=-1)` (source lines 176-335): the
`is_valid` guard raising `AzcamError("image is not valid")`, the `assembled`
memoization guard returning with no state change, and otherwise the main
body `assembleResult`.  Any `trim` value other than `1` (including the `-1`
default) takes the untrimmed branches throughout and never consults the
stored `self.trim` attribute.  An error result carries the state at the
moment of the raise. -/
def assemble (s : Image) (trim : Int) : Except (PyError × Image) Image :=
  if s.is_valid = false then .error (.azcamError "image is not valid", s)
  else if s.assembled = true then .ok s
  else .ok (assembleResult s trim)

/-- One iteration of the `for chan in range(len(self.data))` loop of
`Image.set_scaling`: `self.scales[chan] = gains[chan]` then
`self.offsets[chan] = offsets[chan]`, raising `IndexError` exactly when
Python would (right side first, then the numpy element assignment). -/
def setScalingStep (g o : List Pix) (chan : Nat) (s : Image) :
    Except (PyError × Image) Image :=
  if chan < g.length then
    if chan < s.scales.length then
      let s1 : Image := { s with scales := s.scales.set chan (g.getD chan 0) }
      if chan < o.length then
        if chan < s1.offsets.length then
          .ok { s1 with offsets := s1.offsets.set chan (o.getD chan 0) }
        else .error (.indexError, s1)
      else .error (.indexError, s1)
    else .error (.indexError, s)
  else .error (.indexError, s)

/-- Model of `Image.set_scaling(self, gains=None, offsets=None)`
(source lines 337-369): reset `scales`/`offsets` to per-amplifier defaults
(1.0 / 0.0, length `focalplane.numamps_image`), default omitted arguments to
identity calibration of length `len(self.data)`, then overwrite entries
`0 .. len(self.data)-1` from the caller-supplied sequences.  There is no
length validation anywhere: the only possible failure is an `IndexError`
from one of the element accesses. -/
def set_scaling (s : Image) (gains offsets : Option (List Pix)) :
    Except (PyError × Image) Image :=
  let s0 : Image :=
    { s with
      num_extensions := s.focalplane.numamps_image
      scales := List.replicate s.focalplane.numamps_image 1
      offsets := List.replicate s.focalplane.numamps_image 0 }
  let g := gains.getD (List.replicate s0.data.length 1)
  let o := offsets.getD (List.replicate s0.data.length 0)
  (List.range s0.data.length).foldl
    (fun acc chan => acc.bind (setScalingStep g o chan)) (.ok s0)

/-! Proof-infrastructure definitions: named views of the quantities the copy
loops manipulate, the validity assumptions of the geometry, and concrete
states used by the witnesses. -/

/-- Map a state transformation over both the success state and the state
carried by an error. -/
def mapState (f : Image → Image) :
    Except (PyError × Image) Image → Except (PyError × Image) Image
  | .ok u => .ok (f u)
  | .error (e, u) => .error (e, f u)

/-- The calibration offset `Offsets[indx]` of the amplifier of slot `currExt`. -/
def offAt (ctx : AsmCtx) (currExt : Nat) : Pix :=
  pyGetD ctx.offsets (ampIdx ctx currExt) 0

/-- The calibration scale `Scales[indx]` of the amplifier of slot `currExt`. -/
def scAt (ctx : AsmCtx) (currExt : Nat) : Pix :=
  pyGetD ctx.scales (ampIdx ctx currExt) 0

/-- Statement-level accessor: the amplifier index contributing slot `currExt`
of a destination row of image `s`. -/
def ampIndex (s : Image) (currExt : Nat) : Int :=
  (s.focalplane.jpg_ext.getD currExt 0 : Int) - 1

/-- Statement-level accessor: the flip code of the amplifier of slot `currExt`. -/
def ampFlip (s : Image) (currExt : Nat) : Nat :=
  pyGetD s.focalplane.amp_cfg (ampIndex s currExt) 0

/-- Statement-level accessor: the raw data row of the amplifier of slot `currExt`. -/
def ampRow (s : Image) (currExt : Nat) : List Pix :=
  pyGetD s.data (ampIndex s currExt) []

/-- Statement-level accessor: the calibration offset of the amplifier of slot
`currExt`. -/
def ampOffset (s : Image) (currExt : Nat) : Pix :=
  pyGetD s.offsets (ampIndex s currExt) 0

/-- Statement-level accessor: the calibration scale of the amplifier of slot
`currExt`. -/
def ampScale (s : Image) (currExt : Nat) : Pix :=
  pyGetD s.scales (ampIndex s currExt) 0

/-- The pixel sequence of destination row `line` at amplifier slot `k`
(columns `k*dX .. k*dX + dX - 1`) of the assembled buffer. -/
def destRowSeg (s : Image) (line k dX : Nat) : List Pix :=
  (List.range dX).map (fun j => s.buffer.val line (k * dX + j))

/-- Validity of an image's geometry for assembly, as assumed throughout the
spec (§3 data-model invariants): consistent amplifier grid and sizes, margins
within the amplifier block, a readout-order table of 1-based amplifier
numbers, flip codes in {0,1,2,3}, raw rows of full amplifier size, and a raw
buffer of the declared shape.  The `3 ∈ amp_cfg` clause additionally keeps
the flip-3 mirrored row index nonnegative (the code would otherwise wrap
around via Python negative indexing). -/
def ValidImage (s : Image) : Prop :=
  s.is_valid = true ∧
  s.assembled = false ∧
  s.focalplane.num_ser_amps_det = s.focalplane.numamps_x ∧
  s.focalplane.num_par_amps_det = s.focalplane.numamps_y ∧
  s.size_x = s.focalplane.numamps_x * s.focalplane.numcols_amp ∧
  s.size_y = s.focalplane.numamps_y * s.focalplane.numrows_amp ∧
  s.focalplane.numcols_underscan + s.focalplane.numcols_overscan ≤ s.focalplane.numcols_amp ∧
  s.focalplane.numrows_underscan + s.focalplane.numrows_overscan ≤ s.focalplane.numrows_amp ∧
  s.focalplane.jpg_ext.length = s.focalplane.numamps_x * s.focalplane.numamps_y ∧
  (∀ e ∈ s.focalplane.jpg_ext, 1 ≤ e ∧ e ≤ s.focalplane.numamps_x * s.focalplane.numamps_y) ∧
  s.focalplane.amp_cfg.length = s.focalplane.numamps_x * s.focalplane.numamps_y ∧
  (∀ f ∈ s.focalplane.amp_cfg, f ≤ 3) ∧
  (3 ∈ s.focalplane.amp_cfg →
    s.focalplane.numrows_underscan ≤ s.focalplane.numrows_overscan) ∧
  s.data.length = s.focalplane.numamps_x * s.focalplane.numamps_y ∧
  (∀ r ∈ s.data, r.length = s.focalplane.numcols_amp * s.focalplane.numrows_amp) ∧
  s.buffer.rows = s.size_y ∧
  s.buffer.cols = s.size_x

/-! Concrete states used to evaluate the verified properties. -/

/-- A 2x2-amplifier geometry exercising all four flip codes: 3x2 raw
amplifier blocks with a 1-pixel column prescan and a 1-row overscan. -/
def fpA : FocalPlane :=
  { numcols_image := 6, numrows_image := 4
    numcols_underscan := 1, numcols_overscan := 0
    numrows_underscan := 0, numrows_overscan := 1
    numamps_x := 2, numamps_y := 2
    num_ser_amps_det := 2, num_par_amps_det := 2
    numcols_amp := 3, numrows_amp := 2
    numamps_image := 4
    jpg_ext := [1, 2, 3, 4]
    amp_cfg := [0, 1, 2, 3] }

/-- A valid unassembled image over `fpA` with distinct raw pixel values and
non-identity calibration on two amplifiers. -/
def imgA : Image :=
  { is_valid := true, assembled := false, trimmed := false, trim := 1
    from_file := false, size_x := 6, size_y := 4
    asmsize := (0, 0), buffer := Buf.emptyBuf 4 6
    data := [[11, 12, 13, 14, 15, 16], [21, 22, 23, 24, 25, 26],
             [31, 32, 33, 34, 35, 36], [41, 42, 43, 44, 45, 46]]
    scales := [1, 1, 2, 1], offsets := [0, 0, 0, 10]
    lineLen := 0, startLine := 0, stopLine := 0
    num_extensions := 0, focalplane := fpA }

/-- The image `imgA` with its raw data marked invalid. -/
def img6 : Image := { imgA with is_valid := false }

/-- A single-amplifier geometry whose amplifier carries the out-of-range
flip code 4. -/
def fp7 : FocalPlane :=
  { numcols_image := 2, numrows_image := 1
    numcols_underscan := 0, numcols_overscan := 0
    numrows_underscan := 0, numrows_overscan := 0
    numamps_x := 1, numamps_y := 1
    num_ser_amps_det := 1, num_par_amps_det := 1
    numcols_amp := 2, numrows_amp := 1
    numamps_image := 1
    jpg_ext := [1]
    amp_cfg := [4] }

/-- A valid unassembled image whose only amplifier has flip code 4. -/
def img7 : Image :=
  { is_valid := true, assembled := false, trimmed := false, trim := 1
    from_file := false, size_x := 2, size_y := 1
    asmsize := (0, 0), buffer := Buf.emptyBuf 1 2
    data := [[7, 8]]
    scales := [1], offsets := [0]
    lineLen := 0, startLine := 0, stopLine := 0
    num_extensions := 0, focalplane := fp7 }

/-- The geometry `fp7` with the ordinary flip code 0. -/
def fp10 : FocalPlane := { fp7 with amp_cfg := [0] }

/-- A valid unassembled image whose `trimmed` flag is still set from an
earlier trimmed assembly (reading a new exposure resets `assembled` and
`is_valid` but not `trimmed`, source lines 376-378). -/
def img10 : Image :=
  { is_valid := true, assembled := false, trimmed := true, trim := 1
    from_file := false, size_x := 2, size_y := 1
    asmsize := (0, 0), buffer := Buf.emptyBuf 1 2
    data := [[7, 8]]
    scales := [1], offsets := [0]
    lineLen := 0, startLine := 0, stopLine := 0
    num_extensions := 0, focalplane := fp10 }

/-- An image with a single amplifier data row, used to exercise
`set_scaling` with sequences of differing lengths. -/
def img8 : Image :=
  { is_valid := true, assembled := false, trimmed := false, trim := 1
    from_file := false, size_x := 2, size_y := 1
    asmsize := (0, 0), buffer := Buf.emptyBuf 1 2
    data := [[7, 8]]
    scales := [1], offsets := [0]
    lineLen := 0, startLine := 0, stopLine := 0
    num_extensions := 0, focalplane := fp10 }

/-! Basic lemmas: buffer writes, Python slicing, calibration segments. -/

theorem writeSeg_rows (b : Buf) (line : Nat) (st : Int) (seg : List Pix) :
    (b.writeSeg line st seg).rows = b.rows := rfl

theorem writeSeg_cols (b : Buf) (line : Nat) (st : Int) (seg : List Pix) :
    (b.writeSeg line st seg).cols = b.cols := rfl

theorem writeSeg_val_ne (b : Buf) (line : Nat) (st : Int) (seg : List Pix)
    (r c : Nat) (hr : r ≠ line) :
    (b.writeSeg line st seg).val r c = b.val r c := by
  simp only [Buf.writeSeg]
  rw [if_neg]
  rintro ⟨h, -⟩
  exact hr h

theorem writeSeg_val_low (b : Buf) (line : Nat) (st : Int) (seg : List Pix)
    (r c : Nat) (hc : (c : Int) < st) :
    (b.writeSeg line st seg).val r c = b.val r c := by
  simp only [Buf.writeSeg]
  rw [if_neg]
  rintro ⟨-, h, -⟩
  omega

theorem writeSeg_val_in (b : Buf) (line : Nat) (st : Int) (seg : List Pix)
    (r c : Nat) (hr : r = line) (h1 : st ≤ (c : Int)) (h2 : (c : Int) < st + seg.length)
    (h3 : c < b.cols) :
    (b.writeSeg line st seg).val r c = seg.getD ((c : Int) - st).toNat 0 := by
  simp only [Buf.writeSeg]
  rw [if_pos ⟨hr, h1, h2, h3⟩]

theorem reshape_rows (b : Buf) (r c : Nat) : (b.reshape r c).rows = r := rfl

theorem reshape_cols (b : Buf) (r c : Nat) : (b.reshape r c).cols = c := rfl

theorem reshape_self_val (b : Buf) (r c : Nat) (hc : c < b.cols) :
    (b.reshape b.rows b.cols).val r c = b.val r c := by
  have hpos : 0 < b.cols := by omega
  simp only [Buf.reshape, Buf.flat]
  have h1 : (r * b.cols + c) / b.cols = r := by
    rw [mul_comm, Nat.mul_add_div hpos, Nat.div_eq_of_lt hc, add_zero]
  have h2 : (r * b.cols + c) % b.cols = c := by
    rw [mul_comm, Nat.mul_add_mod, Nat.mod_eq_of_lt hc]
  rw [h1, h2]

theorem pyGetD_of_nonneg {α : Type} (xs : List α) (i : Int) (d : α) (h : 0 ≤ i) :
    pyGetD xs i d = xs.getD i.toNat d := by
  simp only [pyGetD]
  rw [if_neg (by omega)]

theorem pySlice_eq_of_nonneg (xs : List Pix) (a b : Int) (h0 : 0 ≤ a) (hab : a ≤ b)
    (hb : b ≤ (xs.length : Int)) :
    pySlice xs a b = (xs.take b.toNat).drop a.toNat := by
  simp only [pySlice]
  rw [if_neg (by omega), if_neg (by omega), min_eq_left hb, min_eq_left (le_trans hab hb)]

theorem pySlice_length_of_nonneg (xs : List Pix) (a b : Int) (h0 : 0 ≤ a) (hab : a ≤ b)
    (hb : b ≤ (xs.length : Int)) :
    (pySlice xs a b).length = (b - a).toNat := by
  rw [pySlice_eq_of_nonneg xs a b h0 hab hb]
  simp only [List.length_drop, List.length_take]
  omega

theorem pySlice_getD_of_nonneg (xs : List Pix) (a b : Int) (j : Nat) (h0 : 0 ≤ a)
    (hb : b ≤ (xs.length : Int)) (hj : j < (b - a).toNat) :
    (pySlice xs a b).getD j 0 = xs.getD (a.toNat + j) 0 := by
  rw [pySlice_eq_of_nonneg xs a b h0 (by omega) hb]
  rw [List.getD_eq_getElem?_getD, List.getD_eq_getElem?_getD, List.getElem?_drop,
    List.getElem?_take]
  rw [if_pos (by omega)]

theorem pySlice_length_le (xs : List Pix) (a d : Int) (hd : 0 ≤ d) :
    (pySlice xs a (a + d)).length ≤ d.toNat := by
  simp only [pySlice]
  split_ifs <;> simp only [List.length_drop, List.length_take] <;> omega

theorem getD_reverse (l : List Pix) (j : Nat) (hj : j < l.length) :
    l.reverse.getD j 0 = l.getD (l.length - 1 - j) 0 := by
  have h1 : j < l.reverse.length := by simpa using hj
  rw [List.getD_eq_getElem l.reverse _ h1, List.getD_eq_getElem l _ (by omega)]
  exact List.getElem_reverse h1

theorem calibSeg_length (ctx : AsmCtx) (i : Int) (xs : List Pix) :
    (calibSeg ctx i xs).length = xs.length := by
  simp [calibSeg]

theorem calibSeg_getD (ctx : AsmCtx) (i : Int) (xs : List Pix) (j : Nat) (hj : j < xs.length) :
    (calibSeg ctx i xs).getD j 0 =
      (xs.getD j 0 - pyGetD ctx.offsets i 0) * pyGetD ctx.scales i 0 := by
  simp only [calibSeg]
  rw [List.getD_eq_getElem _ _ (by simpa using hj), List.getD_eq_getElem _ _ hj]
  simp

/-! Lemmas about the inner copy loop. -/

theorem copyExt_snd_rows (ctx : AsmCtx) (line : Nat) (sl : Int) (e : Nat) (st : Int × Buf) :
    ((copyExt ctx line sl e st).2).rows = st.2.rows := by
  simp only [copyExt]
  split_ifs <;> rfl

theorem copyExt_snd_cols (ctx : AsmCtx) (line : Nat) (sl : Int) (e : Nat) (st : Int × Buf) :
    ((copyExt ctx line sl e st).2).cols = st.2.cols := by
  simp only [copyExt]
  split_ifs <;> rfl

theorem copyExt_val_ne (ctx : AsmCtx) (line : Nat) (sl : Int) (e : Nat) (st : Int × Buf)
    (r c : Nat) (hr : r ≠ line) :
    ((copyExt ctx line sl e st).2).val r c = st.2.val r c := by
  simp only [copyExt]
  split_ifs
  · exact writeSeg_val_ne _ _ _ _ _ _ hr
  · rfl

theorem copyExt_fst_ge (ctx : AsmCtx) (line : Nat) (sl : Int) (e : Nat) (st : Int × Buf)
    (hll : 0 ≤ ctx.lineLen) :
    st.1 ≤ (copyExt ctx line sl e st).1 := by
  simp only [copyExt]
  split_ifs <;> simp <;> omega

theorem copyExt_val_low (ctx : AsmCtx) (line : Nat) (sl : Int) (e : Nat) (st : Int × Buf)
    (r c : Nat) (hc : (c : Int) < st.1) :
    ((copyExt ctx line sl e st).2).val r c = st.2.val r c := by
  simp only [copyExt]
  split_ifs
  · exact writeSeg_val_low _ _ _ _ _ _ hc
  · rfl

theorem copyExt_eq_of_valid (ctx : AsmCtx) (line : Nat) (sl : Int) (e : Nat) (st : Int × Buf)
    (hf : flipAt ctx e ≤ 3) :
    copyExt ctx line sl e st =
      (st.1 + ctx.lineLen, st.2.writeSeg line st.1 (extSeg ctx sl e)) := by
  simp only [copyExt]
  rw [if_pos (by omega)]

theorem extSeg_length_le (ctx : AsmCtx) (sl : Int) (e : Nat) (hdx : 0 ≤ ctx.dstAmpX) :
    (extSeg ctx sl e).length ≤ ctx.dstAmpX.toNat := by
  simp only [extSeg]
  split_ifs <;>
    simp only [calibSeg_length, List.length_reverse, List.length_nil] <;>
    first
      | exact pySlice_length_le _ _ _ hdx
      | omega

theorem foldExt_snd_rows (ctx : AsmCtx) (line : Nat) (sl : Int) :
    ∀ (es : List Nat) (st : Int × Buf),
      ((es.foldl (fun a e => copyExt ctx line sl e a) st).2).rows = st.2.rows := by
  intro es
  induction es with
  | nil => intro st; rfl
  | cons e es ih => intro st; rw [List.foldl_cons, ih, copyExt_snd_rows]

theorem foldExt_snd_cols (ctx : AsmCtx) (line : Nat) (sl : Int) :
    ∀ (es : List Nat) (st : Int × Buf),
      ((es.foldl (fun a e => copyExt ctx line sl e a) st).2).cols = st.2.cols := by
  intro es
  induction es with
  | nil => intro st; rfl
  | cons e es ih => intro st; rw [List.foldl_cons, ih, copyExt_snd_cols]

theorem foldExt_val_ne (ctx : AsmCtx) (line : Nat) (sl : Int) :
    ∀ (es : List Nat) (st : Int × Buf) (r c : Nat), r ≠ line →
      ((es.foldl (fun a e => copyExt ctx line sl e a) st).2).val r c = st.2.val r c := by
  intro es
  induction es with
  | nil => intro st r c _; rfl
  | cons e es ih =>
    intro st r c hr
    rw [List.foldl_cons, ih _ r c hr, copyExt_val_ne _ _ _ _ _ _ _ hr]

theorem foldExt_fst_ge (ctx : AsmCtx) (line : Nat) (sl : Int) (hll : 0 ≤ ctx.lineLen) :
    ∀ (es : List Nat) (st : Int × Buf),
      st.1 ≤ (es.foldl (fun a e => copyExt ctx line sl e a) st).1 := by
  intro es
  induction es with
  | nil => intro st; exact le_refl _
  | cons e es ih =>
    intro st
    rw [List.foldl_cons]
    exact le_trans (copyExt_fst_ge ctx line sl e st hll) (ih _)

theorem foldExt_val_low (ctx : AsmCtx) (line : Nat) (sl : Int) (hll : 0 ≤ ctx.lineLen) :
    ∀ (es : List Nat) (st : Int × Buf) (r c : Nat), (c : Int) < st.1 →
      ((es.foldl (fun a e => copyExt ctx line sl e a) st).2).val r c = st.2.val r c := by
  intro es
  induction es with
  | nil => intro st r c _; rfl
  | cons e es ih =>
    intro st r c hc
    rw [List.foldl_cons,
      ih _ r c (lt_of_lt_of_le hc (copyExt_fst_ge ctx line sl e st hll)),
      copyExt_val_low _ _ _ _ _ _ _ hc]

theorem foldExt_read (ctx : AsmCtx) (line : Nat) (sl : Int)
    (hll : ctx.lineLen = ctx.dstAmpX) (hdx : 0 ≤ ctx.dstAmpX) :
    ∀ (m e : Nat) (st : Int) (buf : Buf) (k j c : Nat),
      (∀ i, i < m → flipAt ctx (e + i) ≤ 3) →
      k < m →
      j < (extSeg ctx sl (e + k)).length →
      (c : Int) = st + k * ctx.dstAmpX + j →
      c < buf.cols →
      (((List.range' e m).foldl (fun a x => copyExt ctx line sl x a) (st, buf)).2).val line c
        = (extSeg ctx sl (e + k)).getD j 0 := by
  intro m
  induction m with
  | zero => intro e st buf k j c _ hk; omega
  | succ m ih =>
    intro e st buf k j c hflips hk hj hc hcols
    have h0 : flipAt ctx e ≤ 3 := by simpa using hflips 0 (by omega)
    simp only [List.range'_succ, List.foldl_cons]
    rw [copyExt_eq_of_valid ctx line sl e (st, buf) h0]
    cases k with
    | zero =>
      have hlen : (extSeg ctx sl e).length ≤ ctx.dstAmpX.toNat := extSeg_length_le ctx sl e hdx
      have hj0 : j < (extSeg ctx sl e).length := by simpa using hj
      have hc0 : (c : Int) = st + j := by simpa using hc
      have hc' : (c : Int) < st + ctx.lineLen := by rw [hll]; omega
      rw [foldExt_val_low ctx line sl (by omega) _ _ line c hc']
      rw [writeSeg_val_in _ _ _ _ _ _ rfl (by omega) (by omega) (by simpa using hcols)]
      have : ((c : Int) - st).toNat = j := by omega
      rw [this]
      simp
    | succ k =>
      have hflips' : ∀ i, i < m → flipAt ctx (e + 1 + i) ≤ 3 := by
        intro i hi
        have := hflips (i + 1) (by omega)
        have heq : e + (i + 1) = e + 1 + i := by omega
        rwa [heq] at this
      have hj' : j < (extSeg ctx sl (e + 1 + k)).length := by
        have heq : e + 1 + k = e + (k + 1) := by omega
        rwa [heq]
      have hc' : (c : Int) = (st + ctx.lineLen) + k * ctx.dstAmpX + j := by
        rw [hll]
        push_cast at hc ⊢
        linear_combination hc
      have hcols' : c < (Buf.writeSeg buf line st (extSeg ctx sl e)).cols := by
        rw [writeSeg_cols]
        exact hcols
      have := ih (e + 1) (st + ctx.lineLen) (buf.writeSeg line st (extSeg ctx sl e))
        k j c hflips' (by omega) hj' hc' hcols'
      have heq : e + 1 + k = e + (k + 1) := by omega
      rwa [heq] at this

/-! Lemmas about the destination-line loop and the parallel-group loop. -/

theorem copyLine_rows (ctx : AsmCtx) (line : Nat) (sl : Int) (eb : Nat) (buf : Buf) :
    (copyLine ctx line sl eb buf).rows = buf.rows := by
  unfold copyLine
  exact foldExt_snd_rows ctx line sl _ _

theorem copyLine_cols (ctx : AsmCtx) (line : Nat) (sl : Int) (eb : Nat) (buf : Buf) :
    (copyLine ctx line sl eb buf).cols = buf.cols := by
  unfold copyLine
  exact foldExt_snd_cols ctx line sl _ _

theorem copyLine_val_ne (ctx : AsmCtx) (line : Nat) (sl : Int) (eb : Nat) (buf : Buf)
    (r c : Nat) (hr : r ≠ line) :
    (copyLine ctx line sl eb buf).val r c = buf.val r c := by
  unfold copyLine
  exact foldExt_val_ne ctx line sl _ _ r c hr

theorem copyLine_read (ctx : AsmCtx) (line : Nat) (sl : Int) (extBase : Nat) (buf : Buf)
    (hll : ctx.lineLen = ctx.dstAmpX) (hdx : 0 ≤ ctx.dstAmpX)
    (hflips : ∀ i, i < ctx.num_ser → flipAt ctx (extBase + i) ≤ 3)
    (k j c : Nat) (hk : k < ctx.num_ser)
    (hj : j < (extSeg ctx sl (extBase + k)).length)
    (hc : (c : Int) = k * ctx.dstAmpX + j) (hcols : c < buf.cols) :
    (copyLine ctx line sl extBase buf).val line c = (extSeg ctx sl (extBase + k)).getD j 0 := by
  unfold copyLine
  exact foldExt_read ctx line sl hll hdx ctx.num_ser extBase 0 buf k j c hflips hk hj
    (by omega) hcols

theorem linesFold_snd_rows (ctx : AsmCtx) (extBase : Nat) :
    ∀ (ls : List Nat) (st : Int × Buf),
      ((ls.foldl (fun st line => (st.1 + 1, copyLine ctx line st.1 extBase st.2)) st).2).rows
        = st.2.rows := by
  intro ls
  induction ls with
  | nil => intro st; rfl
  | cons l ls ih => intro st; rw [List.foldl_cons, ih, copyLine_rows]

theorem linesFold_snd_cols (ctx : AsmCtx) (extBase : Nat) :
    ∀ (ls : List Nat) (st : Int × Buf),
      ((ls.foldl (fun st line => (st.1 + 1, copyLine ctx line st.1 extBase st.2)) st).2).cols
        = st.2.cols := by
  intro ls
  induction ls with
  | nil => intro st; rfl
  | cons l ls ih => intro st; rw [List.foldl_cons, ih, copyLine_cols]

theorem linesFold_val_ne (ctx : AsmCtx) (extBase : Nat) :
    ∀ (ls : List Nat) (st : Int × Buf) (r c : Nat), r ∉ ls →
      ((ls.foldl (fun st line => (st.1 + 1, copyLine ctx line st.1 extBase st.2)) st).2).val r c
        = st.2.val r c := by
  intro ls
  induction ls with
  | nil => intro st r c _; rfl
  | cons l ls ih =>
    intro st r c hr
    rw [List.foldl_cons, ih _ r c (fun h => hr (List.mem_cons_of_mem _ h)),
      copyLine_val_ne _ _ _ _ _ r c (fun h => hr (h ▸ List.mem_cons_self _ _))]

theorem linesFold_read (ctx : AsmCtx) (extBase : Nat)
    (hll : ctx.lineLen = ctx.dstAmpX) (hdx : 0 ≤ ctx.dstAmpX)
    (hflips : ∀ i, i < ctx.num_ser → flipAt ctx (extBase + i) ≤ 3) :
    ∀ (n start : Nat) (sl : Int) (buf : Buf) (l k j c : Nat),
      l < n → k < ctx.num_ser →
      j < (extSeg ctx (sl + l) (extBase + k)).length →
      (c : Int) = k * ctx.dstAmpX + j →
      c < buf.cols →
      (((List.range' start n).foldl
          (fun st line => (st.1 + 1, copyLine ctx line st.1 extBase st.2)) (sl, buf)).2).val
          (start + l) c
        = (extSeg ctx (sl + l) (extBase + k)).getD j 0 := by
  intro n
  induction n with
  | zero => intro start sl buf l k j c hl; omega
  | succ n ih =>
    intro start sl buf l k j c hl hk hj hc hcols
    simp only [List.range'_succ, List.foldl_cons]
    cases l with
    | zero =>
      have hout : start ∉ List.range' (start + 1) n := by
        intro hmem
        rw [List.mem_range'_1] at hmem
        omega
      simp only [Nat.cast_zero, add_zero] at hj ⊢
      rw [linesFold_val_ne ctx extBase _ _ start c hout]
      exact copyLine_read ctx start sl extBase buf hll hdx hflips k j c hk hj hc hcols
    | succ l =>
      have hsl : sl + ((l + 1 : Nat) : Int) = sl + 1 + (l : Int) := by push_cast; ring
      have hrow : start + (l + 1) = start + 1 + l := by omega
      rw [hsl] at hj
      rw [hrow, hsl]
      have hcols' : c < (copyLine ctx start sl extBase buf).cols := by
        rw [copyLine_cols]
        exact hcols
      exact ih (start + 1) (sl + 1) (copyLine ctx start sl extBase buf) l k j c
        (by omega) hk hj hc hcols'

theorem copyPar_rows (ctx : AsmCtx) (p : Nat) (buf : Buf) :
    (copyPar ctx p buf).rows = buf.rows := by
  unfold copyPar
  exact linesFold_snd_rows ctx _ _ _

theorem copyPar_cols (ctx : AsmCtx) (p : Nat) (buf : Buf) :
    (copyPar ctx p buf).cols = buf.cols := by
  unfold copyPar
  exact linesFold_snd_cols ctx _ _ _

theorem copyPar_val_low (ctx : AsmCtx) (p : Nat) (buf : Buf) (r c : Nat)
    (hr : r < p * ctx.dstAmpY.toNat) :
    (copyPar ctx p buf).val r c = buf.val r c := by
  unfold copyPar
  apply linesFold_val_ne
  intro hmem
  rw [List.mem_range'_1] at hmem
  omega

theorem parsFold_val_low (ctx : AsmCtx) :
    ∀ (m q : Nat) (buf : Buf) (r c : Nat), r < q * ctx.dstAmpY.toNat →
      (((List.range' q m).foldl (fun b x => copyPar ctx x b) buf)).val r c = buf.val r c := by
  intro m
  induction m with
  | zero => intro q buf r c _; rfl
  | succ m ih =>
    intro q buf r c hr
    simp only [List.range'_succ, List.foldl_cons]
    rw [ih (q + 1) _ r c (by nlinarith [Nat.le_succ q]), copyPar_val_low ctx q buf r c hr]

theorem parsFold_snd_cols (ctx : AsmCtx) :
    ∀ (ps : List Nat) (buf : Buf),
      ((ps.foldl (fun b x => copyPar ctx x b) buf)).cols = buf.cols := by
  intro ps
  induction ps with
  | nil => intro buf; rfl
  | cons p ps ih => intro buf; rw [List.foldl_cons, ih, copyPar_cols]

theorem parsFold_snd_rows (ctx : AsmCtx) :
    ∀ (ps : List Nat) (buf : Buf),
      ((ps.foldl (fun b x => copyPar ctx x b) buf)).rows = buf.rows := by
  intro ps
  induction ps with
  | nil => intro buf; rfl
  | cons p ps ih => intro buf; rw [List.foldl_cons, ih, copyPar_rows]

theorem parsFold_read (ctx : AsmCtx)
    (hll : ctx.lineLen = ctx.dstAmpX) (hdx : 0 ≤ ctx.dstAmpX)
    (hflips : ∀ e, e < ctx.num_par * ctx.num_ser → flipAt ctx e ≤ 3) :
    ∀ (m q : Nat) (buf : Buf) (p l k j c : Nat),
      q + m ≤ ctx.num_par →
      p < m → l < ctx.dstAmpY.toNat → k < ctx.num_ser →
      j < (extSeg ctx ((ctx.prescan2 : Int) + l) ((q + p) * ctx.num_ser + k)).length →
      (c : Int) = k * ctx.dstAmpX + j →
      c < buf.cols →
      (((List.range' q m).foldl (fun b x => copyPar ctx x b) buf)).val
          ((q + p) * ctx.dstAmpY.toNat + l) c
        = (extSeg ctx ((ctx.prescan2 : Int) + l) ((q + p) * ctx.num_ser + k)).getD j 0 := by
  intro m
  induction m with
  | zero => intro q buf p l k j c _ hp; omega
  | succ m ih =>
    intro q buf p l k j c hqm hp hl hk hj hc hcols
    simp only [List.range'_succ, List.foldl_cons]
    cases p with
    | zero =>
      simp only [Nat.add_zero] at hj ⊢
      rw [parsFold_val_low ctx m (q + 1) _ (q * ctx.dstAmpY.toNat + l) c
        (by nlinarith [Nat.le_succ q])]
      unfold copyPar
      have hflips' : ∀ i, i < ctx.num_ser → flipAt ctx (q * ctx.num_ser + i) ≤ 3 := by
        intro i hi
        exact hflips _ (by nlinarith)
      exact linesFold_read ctx (q * ctx.num_ser) hll hdx hflips' ctx.dstAmpY.toNat
        (q * ctx.dstAmpY.toNat) (ctx.prescan2 : Int) buf l k j c hl hk hj hc hcols
    | succ p =>
      have hq : q + (p + 1) = (q + 1) + p := by omega
      rw [hq] at hj ⊢
      have hcols' : c < (copyPar ctx q buf).cols := by
        rw [copyPar_cols]
        exact hcols
      exact ih (q + 1) (copyPar ctx q buf) p l k j c (by omega) (by omega) hl hk hj hc hcols'

/-! Characterization of the copied segments under in-range geometry. -/

theorem slice_row_length (row : List Pix) (aX aY : Nat) (tr p1 dX : Int)
    (hrow : row.length = aY * aX)
    (ht0 : 0 ≤ tr) (ht1 : tr < (aY : Int)) (hp1 : 0 ≤ p1) (hdx : 0 ≤ dX)
    (hpd : p1 + dX ≤ (aX : Int)) :
    (pySlice row (tr * aX + p1) (tr * aX + p1 + dX)).length = dX.toNat := by
  have hA : (0 : Int) ≤ (aX : Int) := by positivity
  have h0 : 0 ≤ tr * aX + p1 := by nlinarith
  have hmul : (tr + 1) * (aX : Int) ≤ (aY : Int) * aX :=
    mul_le_mul_of_nonneg_right (by omega) hA
  have hb : tr * aX + p1 + dX ≤ (row.length : Int) := by
    rw [hrow]
    push_cast
    nlinarith
  rw [pySlice_length_of_nonneg _ _ _ h0 (by omega) hb]
  omega

theorem slice_row_getD (row : List Pix) (aX aY : Nat) (tr p1 dX : Int)
    (hrow : row.length = aY * aX)
    (ht0 : 0 ≤ tr) (ht1 : tr < (aY : Int)) (hp1 : 0 ≤ p1) (hdx : 0 ≤ dX)
    (hpd : p1 + dX ≤ (aX : Int)) (j : Nat) (hj : j < dX.toNat) :
    (pySlice row (tr * aX + p1) (tr * aX + p1 + dX)).getD j 0
      = row.getD ((tr * aX + p1).toNat + j) 0 := by
  have hA : (0 : Int) ≤ (aX : Int) := by positivity
  have h0 : 0 ≤ tr * aX + p1 := by nlinarith
  have hmul : (tr + 1) * (aX : Int) ≤ (aY : Int) * aX :=
    mul_le_mul_of_nonneg_right (by omega) hA
  have hb : tr * aX + p1 + dX ≤ (row.length : Int) := by
    rw [hrow]
    push_cast
    nlinarith
  have hba : tr * aX + p1 + dX - (tr * aX + p1) = dX := by ring
  exact pySlice_getD_of_nonneg row _ _ j h0 hb (by rw [hba]; exact hj)

theorem extSeg_length_full (ctx : AsmCtx) (sl : Int) (e : Nat)
    (hf : flipAt ctx e ≤ 3)
    (hrow : (rowAt ctx e).length = ctx.srcAmpY * ctx.srcAmpX)
    (hx : (ctx.prescan1 : Int) + ctx.dstAmpX ≤ (ctx.srcAmpX : Int))
    (hdx : 0 ≤ ctx.dstAmpX)
    (hy : (ctx.prescan2 : Int) + ctx.dstAmpY + ctx.overscan2 ≤ (ctx.srcAmpY : Int))
    (hy3 : flipAt ctx e = 3 → 2 * (ctx.prescan2 : Int) + ctx.dstAmpY ≤ (ctx.srcAmpY : Int))
    (hsl1 : (ctx.prescan2 : Int) ≤ sl) (hsl2 : sl < (ctx.prescan2 : Int) + ctx.dstAmpY) :
    (extSeg ctx sl e).length = ctx.dstAmpX.toNat := by
  have hp2 : (0 : Int) ≤ (ctx.prescan2 : Int) := by positivity
  have hp1 : (0 : Int) ≤ (ctx.prescan1 : Int) := by positivity
  have ho2 : (0 : Int) ≤ (ctx.overscan2 : Int) := by positivity
  have hf' : flipAt ctx e = 0 ∨ flipAt ctx e = 1 ∨ flipAt ctx e = 2 ∨ flipAt ctx e = 3 := by
    omega
  rcases hf' with h0 | h1 | h2 | h3
  · simp only [extSeg]
    rw [h0, if_pos rfl, calibSeg_length]
    exact slice_row_length _ _ _ _ _ _ hrow (by omega) (by omega) hp1 hdx hx
  · simp only [extSeg]
    rw [h1, if_neg (by omega), if_pos rfl, calibSeg_length, List.length_reverse]
    exact slice_row_length _ _ _ _ _ _ hrow (by omega) (by omega) hp1 hdx hx
  · simp only [extSeg]
    rw [h2, if_neg (by omega), if_neg (by omega), if_pos rfl, calibSeg_length]
    exact slice_row_length _ _ _ _ _ _ hrow (by omega) (by omega) hp1 hdx hx
  · simp only [extSeg]
    rw [h3, if_neg (by omega), if_neg (by omega), if_neg (by omega), if_pos rfl,
      calibSeg_length, List.length_reverse]
    have := hy3 h3
    exact slice_row_length _ _ _ _ _ _ hrow (by omega) (by omega) hp1 hdx hx

theorem extSeg_getD_flip0 (ctx : AsmCtx) (sl : Int) (e : Nat)
    (h0 : flipAt ctx e = 0)
    (hrow : (rowAt ctx e).length = ctx.srcAmpY * ctx.srcAmpX)
    (hx : (ctx.prescan1 : Int) + ctx.dstAmpX ≤ (ctx.srcAmpX : Int))
    (hdx : 0 ≤ ctx.dstAmpX)
    (hy : (ctx.prescan2 : Int) + ctx.dstAmpY + ctx.overscan2 ≤ (ctx.srcAmpY : Int))
    (hsl1 : (ctx.prescan2 : Int) ≤ sl) (hsl2 : sl < (ctx.prescan2 : Int) + ctx.dstAmpY)
    (j : Nat) (hj : j < ctx.dstAmpX.toNat) :
    (extSeg ctx sl e).getD j 0
      = ((rowAt ctx e).getD ((sl * ctx.srcAmpX + ctx.prescan1).toNat + j) 0
          - offAt ctx e) * scAt ctx e := by
  have hp1 : (0 : Int) ≤ (ctx.prescan1 : Int) := by positivity
  have hlen := slice_row_length (rowAt ctx e) ctx.srcAmpX ctx.srcAmpY sl ctx.prescan1
    ctx.dstAmpX hrow (by omega) (by omega) hp1 hdx hx
  simp only [extSeg, offAt, scAt]
  rw [h0, if_pos rfl]
  rw [calibSeg_getD _ _ _ _ (by omega)]
  rw [slice_row_getD _ _ _ _ _ _ hrow (by omega) (by omega) hp1 hdx hx j hj]

theorem extSeg_getD_flip1 (ctx : AsmCtx) (sl : Int) (e : Nat)
    (h1 : flipAt ctx e = 1)
    (hrow : (rowAt ctx e).length = ctx.srcAmpY * ctx.srcAmpX)
    (hx : (ctx.prescan1 : Int) + ctx.dstAmpX ≤ (ctx.srcAmpX : Int))
    (hdx : 0 ≤ ctx.dstAmpX)
    (hy : (ctx.prescan2 : Int) + ctx.dstAmpY + ctx.overscan2 ≤ (ctx.srcAmpY : Int))
    (hsl1 : (ctx.prescan2 : Int) ≤ sl) (hsl2 : sl < (ctx.prescan2 : Int) + ctx.dstAmpY)
    (j : Nat) (hj : j < ctx.dstAmpX.toNat) :
    (extSeg ctx sl e).getD j 0
      = ((rowAt ctx e).getD
            ((sl * ctx.srcAmpX + ctx.prescan1).toNat + (ctx.dstAmpX.toNat - 1 - j)) 0
          - offAt ctx e) * scAt ctx e := by
  have hp1 : (0 : Int) ≤ (ctx.prescan1 : Int) := by positivity
  have hlen := slice_row_length (rowAt ctx e) ctx.srcAmpX ctx.srcAmpY sl ctx.prescan1
    ctx.dstAmpX hrow (by omega) (by omega) hp1 hdx hx
  simp only [extSeg, offAt, scAt]
  rw [h1, if_neg (by omega), if_pos rfl]
  rw [calibSeg_getD _ _ _ _ (by simp only [List.length_reverse]; omega)]
  rw [getD_reverse _ _ (by omega), hlen]
  rw [slice_row_getD _ _ _ _ _ _ hrow (by omega) (by omega) hp1 hdx hx _ (by omega)]

theorem extSeg_getD_flip2 (ctx : AsmCtx) (sl : Int) (e : Nat)
    (h2 : flipAt ctx e = 2)
    (hrow : (rowAt ctx e).length = ctx.srcAmpY * ctx.srcAmpX)
    (hx : (ctx.prescan1 : Int) + ctx.dstAmpX ≤ (ctx.srcAmpX : Int))
    (hdx : 0 ≤ ctx.dstAmpX)
    (hy : (ctx.prescan2 : Int) + ctx.dstAmpY + ctx.overscan2 ≤ (ctx.srcAmpY : Int))
    (hsl1 : (ctx.prescan2 : Int) ≤ sl) (hsl2 : sl < (ctx.prescan2 : Int) + ctx.dstAmpY)
    (j : Nat) (hj : j < ctx.dstAmpX.toNat) :
    (extSeg ctx sl e).getD j 0
      = ((rowAt ctx e).getD
            ((((ctx.srcAmpY : Int) - sl - ctx.overscan2 - 1) * ctx.srcAmpX
                + ctx.prescan1).toNat + j) 0
          - offAt ctx e) * scAt ctx e := by
  have hp1 : (0 : Int) ≤ (ctx.prescan1 : Int) := by positivity
  simp only [extSeg, offAt, scAt]
  rw [h2, if_neg (by omega), if_neg (by omega), if_pos rfl]
  have hlen := slice_row_length (rowAt ctx e) ctx.srcAmpX ctx.srcAmpY
    ((ctx.srcAmpY : Int) - sl - ctx.overscan2 - 1) ctx.prescan1
    ctx.dstAmpX hrow (by omega) (by omega) hp1 hdx hx
  rw [calibSeg_getD _ _ _ _ (by omega)]
  rw [slice_row_getD _ _ _ _ _ _ hrow (by omega) (by omega) hp1 hdx hx j hj]

theorem extSeg_getD_flip3 (ctx : AsmCtx) (sl : Int) (e : Nat)
    (h3 : flipAt ctx e = 3)
    (hrow : (rowAt ctx e).length = ctx.srcAmpY * ctx.srcAmpX)
    (hx : (ctx.prescan1 : Int) + ctx.dstAmpX ≤ (ctx.srcAmpX : Int))
    (hdx : 0 ≤ ctx.dstAmpX)
    (hy : (ctx.prescan2 : Int) + ctx.dstAmpY + ctx.overscan2 ≤ (ctx.srcAmpY : Int))
    (hy3 : 2 * (ctx.prescan2 : Int) + ctx.dstAmpY ≤ (ctx.srcAmpY : Int))
    (hsl1 : (ctx.prescan2 : Int) ≤ sl) (hsl2 : sl < (ctx.prescan2 : Int) + ctx.dstAmpY)
    (j : Nat) (hj : j < ctx.dstAmpX.toNat) :
    (extSeg ctx sl e).getD j 0
      = ((rowAt ctx e).getD
            ((((ctx.srcAmpY : Int) - sl - ctx.prescan2 - 1) * ctx.srcAmpX
                + ctx.prescan1).toNat + (ctx.dstAmpX.toNat - 1 - j)) 0
          - offAt ctx e) * scAt ctx e := by
  have hp1 : (0 : Int) ≤ (ctx.prescan1 : Int) := by positivity
  simp only [extSeg, offAt, scAt]
  rw [h3, if_neg (by omega), if_neg (by omega), if_neg (by omega), if_pos rfl]
  have hlen := slice_row_length (rowAt ctx e) ctx.srcAmpX ctx.srcAmpY
    ((ctx.srcAmpY : Int) - sl - ctx.prescan2 - 1) ctx.prescan1
    ctx.dstAmpX hrow (by omega) (by omega) hp1 hdx hx
  rw [calibSeg_getD _ _ _ _ (by simp only [List.length_reverse]; omega)]
  rw [getD_reverse _ _ (by omega), hlen]
  rw [slice_row_getD _ _ _ _ _ _ hrow (by omega) (by omega) hp1 hdx hx _ (by omega)]

/-! Running `assemble` on a not-yet-assembled valid image. -/

theorem slot_lt (p k A B : Nat) (hp : p < B) (hk : k < A) : p * A + k < B * A := by
  have h1 : (p + 1) * A = p * A + A := Nat.succ_mul p A
  have h2 : (p + 1) * A ≤ B * A := Nat.mul_le_mul_right A hp
  omega

theorem assemble_run (s : Image) (t : Int) (h1 : s.is_valid = true) (h2 : s.assembled = false) :
    assemble s t = .ok (assembleResult s t) := by
  simp [assemble, h1, h2]

theorem assemble_ok_cases (s : Image) (t : Int) (s' : Image) (ha : assemble s t = .ok s') :
    (s.is_valid = true ∧ s.assembled = true ∧ s' = s) ∨
    (s.is_valid = true ∧ s.assembled = false ∧ s' = assembleResult s t) := by
  unfold assemble at ha
  by_cases h1 : s.is_valid = false
  · rw [if_pos h1] at ha
    exact absurd ha (by simp)
  · rw [if_neg h1] at ha
    by_cases h2 : s.assembled = true
    · rw [if_pos h2] at ha
      exact Or.inl ⟨by simpa using h1, h2, (by simpa using ha : s = s').symm⟩
    · rw [if_neg h2] at ha
      exact Or.inr ⟨by simpa using h1, by simpa using h2,
        (by simpa using ha : assembleResult s t = s').symm⟩

theorem assembleResult_buffer (s : Image) (t : Int) :
    (assembleResult s t).buffer =
      (assembleLoops (asmCtx s t) (asmBuf3 s t)).reshape
        (asmSize s t).2.toNat (asmSize s t).1.toNat := rfl

theorem assembleResult_assembled (s : Image) (t : Int) :
    (assembleResult s t).assembled = true := rfl

theorem assembleResult_trimmed (s : Image) (t : Int) :
    (assembleResult s t).trimmed = if t = 1 then true else s.trimmed := rfl

theorem assembleResult_asmsize (s : Image) (t : Int) :
    (assembleResult s t).asmsize = asmSize s t := rfl

theorem assembleResult_is_valid (s : Image) (t : Int) :
    (assembleResult s t).is_valid = s.is_valid := rfl

theorem asmBuf0_rows (s : Image) (hbr : s.buffer.rows = s.size_y) :
    (asmBuf0 s).rows = s.size_y := by
  unfold asmBuf0
  split_ifs
  · rfl
  · exact hbr

theorem asmBuf0_cols (s : Image) (hbc : s.buffer.cols = s.size_x) :
    (asmBuf0 s).cols = s.size_x := by
  unfold asmBuf0
  split_ifs
  · rfl
  · exact hbc

theorem asmBuf3_rows (s : Image) (t : Int) (hbr : s.buffer.rows = s.size_y) :
    (asmBuf3 s t).rows = (asmSize s t).2.toNat := by
  unfold asmBuf3
  by_cases ht : t = 1
  · rw [if_pos ht]
    rfl
  · rw [if_neg ht]
    by_cases hd : dataSize s.data ≠ (asmBuf0 s).size
    · rw [if_pos hd]
      rfl
    · rw [if_neg hd, asmBuf0_rows s hbr]
      unfold asmSize
      rw [if_neg ht]
      simp

theorem asmBuf3_cols (s : Image) (t : Int) (hbc : s.buffer.cols = s.size_x) :
    (asmBuf3 s t).cols = (asmSize s t).1.toNat := by
  unfold asmBuf3
  by_cases ht : t = 1
  · rw [if_pos ht]
    rfl
  · rw [if_neg ht]
    by_cases hd : dataSize s.data ≠ (asmBuf0 s).size
    · rw [if_pos hd]
      rfl
    · rw [if_neg hd, asmBuf0_cols s hbc]
      unfold asmSize
      rw [if_neg ht]
      simp

theorem assembleLoops_rows (ctx : AsmCtx) (buf : Buf) :
    (assembleLoops ctx buf).rows = buf.rows := by
  unfold assembleLoops
  exact parsFold_snd_rows ctx _ buf

theorem assembleLoops_cols (ctx : AsmCtx) (buf : Buf) :
    (assembleLoops ctx buf).cols = buf.cols := by
  unfold assembleLoops
  exact parsFold_snd_cols ctx _ buf

theorem assembleLoops_read (ctx : AsmCtx) (buf : Buf)
    (hll : ctx.lineLen = ctx.dstAmpX) (hdx : 0 ≤ ctx.dstAmpX)
    (hflips : ∀ e, e < ctx.num_par * ctx.num_ser → flipAt ctx e ≤ 3)
    (p l k j : Nat) (hp : p < ctx.num_par) (hl : l < ctx.dstAmpY.toNat) (hk : k < ctx.num_ser)
    (hj : j < (extSeg ctx ((ctx.prescan2 : Int) + l) (p * ctx.num_ser + k)).length)
    (hcols : k * ctx.dstAmpX.toNat + j < buf.cols) :
    (assembleLoops ctx buf).val (p * ctx.dstAmpY.toNat + l) (k * ctx.dstAmpX.toNat + j)
      = (extSeg ctx ((ctx.prescan2 : Int) + l) (p * ctx.num_ser + k)).getD j 0 := by
  unfold assembleLoops
  rw [List.range_eq_range']
  have hc : ((k * ctx.dstAmpX.toNat + j : Nat) : Int) = (k : Int) * ctx.dstAmpX + (j : Int) := by
    push_cast
    rw [Int.toNat_of_nonneg hdx]
  have := parsFold_read ctx hll hdx hflips ctx.num_par 0 buf p l k j
    (k * ctx.dstAmpX.toNat + j) (by omega) hp hl hk (by simpa using hj) hc hcols
  simpa using this

/-! Bridging the validity assumptions to the loop context. -/

theorem valid_flips (s : Image) (t : Int) (hv : ValidImage s) :
    ∀ e, e < (asmCtx s t).num_par * (asmCtx s t).num_ser → flipAt (asmCtx s t) e ≤ 3 := by
  obtain ⟨-, -, hser, hpar, -, -, -, -, hextlen, hextb, hcfglen, hflipc, -, -, -, -, -⟩ := hv
  intro e he
  have hns : (asmCtx s t).num_ser = s.focalplane.numamps_x := hser
  have hnp : (asmCtx s t).num_par = s.focalplane.numamps_y := hpar
  rw [hns, hnp] at he
  have helen : e < s.focalplane.jpg_ext.length := by
    rw [hextlen, Nat.mul_comm]
    exact he
  have hmem : s.focalplane.jpg_ext.getD e 0 ∈ s.focalplane.jpg_ext := by
    rw [List.getD_eq_getElem _ _ helen]
    exact List.getElem_mem helen
  obtain ⟨h1, h2⟩ := hextb _ hmem
  show pyGetD s.focalplane.amp_cfg ((s.focalplane.jpg_ext.getD e 0 : Int) - 1) 0 ≤ 3
  rw [pyGetD_of_nonneg _ _ _ (by omega)]
  have hidx : ((s.focalplane.jpg_ext.getD e 0 : Int) - 1).toNat < s.focalplane.amp_cfg.length := by
    rw [hcfglen]
    omega
  rw [List.getD_eq_getElem _ _ hidx]
  exact hflipc _ (List.getElem_mem hidx)

theorem valid_rowlen (s : Image) (t : Int) (hv : ValidImage s) :
    ∀ e, e < (asmCtx s t).num_par * (asmCtx s t).num_ser →
      (rowAt (asmCtx s t) e).length = (asmCtx s t).srcAmpY * (asmCtx s t).srcAmpX := by
  obtain ⟨-, -, hser, hpar, -, -, -, -, hextlen, hextb, -, -, -, hdatalen, hdatarows, -, -⟩ := hv
  intro e he
  have hns : (asmCtx s t).num_ser = s.focalplane.numamps_x := hser
  have hnp : (asmCtx s t).num_par = s.focalplane.numamps_y := hpar
  rw [hns, hnp] at he
  have helen : e < s.focalplane.jpg_ext.length := by
    rw [hextlen, Nat.mul_comm]
    exact he
  have hmem : s.focalplane.jpg_ext.getD e 0 ∈ s.focalplane.jpg_ext := by
    rw [List.getD_eq_getElem _ _ helen]
    exact List.getElem_mem helen
  obtain ⟨h1, h2⟩ := hextb _ hmem
  show (pyGetD s.data ((s.focalplane.jpg_ext.getD e 0 : Int) - 1) []).length
    = s.focalplane.numrows_amp * s.focalplane.numcols_amp
  rw [pyGetD_of_nonneg _ _ _ (by omega)]
  have hidx : ((s.focalplane.jpg_ext.getD e 0 : Int) - 1).toNat < s.data.length := by
    rw [hdatalen]
    omega
  rw [List.getD_eq_getElem _ _ hidx, hdatarows _ (List.getElem_mem hidx), Nat.mul_comm]

theorem valid_flip3_mem (s : Image) (t : Int) (hv : ValidImage s) :
    ∀ e, e < (asmCtx s t).num_par * (asmCtx s t).num_ser → flipAt (asmCtx s t) e = 3 →
      (3 : Nat) ∈ s.focalplane.amp_cfg := by
  obtain ⟨-, -, hser, hpar, -, -, -, -, hextlen, hextb, hcfglen, -, -, -, -, -, -⟩ := hv
  intro e he h3
  have hns : (asmCtx s t).num_ser = s.focalplane.numamps_x := hser
  have hnp : (asmCtx s t).num_par = s.focalplane.numamps_y := hpar
  rw [hns, hnp] at he
  have helen : e < s.focalplane.jpg_ext.length := by
    rw [hextlen, Nat.mul_comm]
    exact he
  have hmem : s.focalplane.jpg_ext.getD e 0 ∈ s.focalplane.jpg_ext := by
    rw [List.getD_eq_getElem _ _ helen]
    exact List.getElem_mem helen
  obtain ⟨h1, h2⟩ := hextb _ hmem
  have hfl : flipAt (asmCtx s t) e
      = pyGetD s.focalplane.amp_cfg ((s.focalplane.jpg_ext.getD e 0 : Int) - 1) 0 := rfl
  rw [hfl, pyGetD_of_nonneg _ _ _ (by omega)] at h3
  have hidx : ((s.focalplane.jpg_ext.getD e 0 : Int) - 1).toNat < s.focalplane.amp_cfg.length := by
    rw [hcfglen]
    omega
  rw [List.getD_eq_getElem _ _ hidx] at h3
  exact h3 ▸ List.getElem_mem hidx

theorem valid_geom (s : Image) (t : Int) (hv : ValidImage s) :
    0 ≤ (asmCtx s t).dstAmpX ∧
    ((asmCtx s t).prescan1 : Int) + (asmCtx s t).dstAmpX ≤ ((asmCtx s t).srcAmpX : Int) ∧
    ((asmCtx s t).prescan2 : Int) + (asmCtx s t).dstAmpY + (asmCtx s t).overscan2
      ≤ ((asmCtx s t).srcAmpY : Int) := by
  obtain ⟨-, -, -, -, -, -, hmx, hmy, -, -, -, -, -, -, -, -, -⟩ := hv
  by_cases ht : t = 1 <;>
    simp only [asmCtx, ht, if_pos, if_neg, reduceIte] <;>
    refine ⟨?_, ?_, ?_⟩ <;> push_cast <;> omega

theorem valid_flip3_bound (s : Image) (t : Int) (hv : ValidImage s)
    (e : Nat) (he : e < (asmCtx s t).num_par * (asmCtx s t).num_ser)
    (h3 : flipAt (asmCtx s t) e = 3) :
    2 * ((asmCtx s t).prescan2 : Int) + (asmCtx s t).dstAmpY ≤ ((asmCtx s t).srcAmpY : Int) := by
  have hmem := valid_flip3_mem s t hv e he h3
  obtain ⟨-, -, -, -, -, -, -, hmy, -, -, -, -, hflip3m, -, -, -, -⟩ := hv
  have hu2o2 := hflip3m hmem
  by_cases ht : t = 1 <;>
    simp only [asmCtx, ht, if_pos, if_neg, reduceIte] <;> push_cast <;> omega

theorem valid_asmSize (s : Image) (t : Int) (hv : ValidImage s) :
    (asmSize s t).1.toNat = s.focalplane.numamps_x * (asmCtx s t).dstAmpX.toNat ∧
    (asmSize s t).2.toNat = s.focalplane.numamps_y * (asmCtx s t).dstAmpY.toNat := by
  obtain ⟨-, -, -, -, hsx, hsy, hmx, hmy, -, -, -, -, -, -, -, -, -⟩ := hv
  by_cases ht : t = 1
  · constructor
    · have h1 : (asmSize s t).1 = (s.focalplane.numamps_x : Int)
          * ((s.focalplane.numcols_amp : Int) - s.focalplane.numcols_underscan
              - s.focalplane.numcols_overscan) := by
        simp only [asmSize, ht, reduceIte]
        rw [hsx]
        push_cast
        ring
      have h3 : (asmCtx s t).dstAmpX = (s.focalplane.numcols_amp : Int)
          - s.focalplane.numcols_underscan - s.focalplane.numcols_overscan := by
        simp [asmCtx, ht]
      have h2 : ((s.focalplane.numcols_amp : Int) - s.focalplane.numcols_underscan
          - s.focalplane.numcols_overscan)
          = ((s.focalplane.numcols_amp - s.focalplane.numcols_underscan
              - s.focalplane.numcols_overscan : Nat) : Int) := by
        omega
      rw [h1, h2, ← Nat.cast_mul, Int.toNat_natCast, h3]
      have h4 : ((s.focalplane.numcols_amp : Int) - s.focalplane.numcols_underscan
          - s.focalplane.numcols_overscan).toNat
          = s.focalplane.numcols_amp - s.focalplane.numcols_underscan
              - s.focalplane.numcols_overscan := by
        omega
      rw [h4]
    · have h1 : (asmSize s t).2 = (s.focalplane.numamps_y : Int)
          * ((s.focalplane.numrows_amp : Int) - s.focalplane.numrows_underscan
              - s.focalplane.numrows_overscan) := by
        simp only [asmSize, ht, reduceIte]
        rw [hsy]
        push_cast
        ring
      have h3 : (asmCtx s t).dstAmpY = (s.focalplane.numrows_amp : Int)
          - s.focalplane.numrows_underscan - s.focalplane.numrows_overscan := by
        simp [asmCtx, ht]
      have h2 : ((s.focalplane.numrows_amp : Int) - s.focalplane.numrows_underscan
          - s.focalplane.numrows_overscan)
          = ((s.focalplane.numrows_amp - s.focalplane.numrows_underscan
              - s.focalplane.numrows_overscan : Nat) : Int) := by
        omega
      rw [h1, h2, ← Nat.cast_mul, Int.toNat_natCast, h3]
      have h4 : ((s.focalplane.numrows_amp : Int) - s.focalplane.numrows_underscan
          - s.focalplane.numrows_overscan).toNat
          = s.focalplane.numrows_amp - s.focalplane.numrows_underscan
              - s.focalplane.numrows_overscan := by
        omega
      rw [h4]
  · have h1 : (asmSize s t).1 = ((s.size_x : Nat) : Int) := by
      simp [asmSize, ht]
    have h2 : (asmSize s t).2 = ((s.size_y : Nat) : Int) := by
      simp [asmSize, ht]
    have h3 : (asmCtx s t).dstAmpX = (s.focalplane.numcols_amp : Int) := by
      simp [asmCtx, ht]
    have h4 : (asmCtx s t).dstAmpY = (s.focalplane.numrows_amp : Int) := by
      simp [asmCtx, ht]
    constructor
    · rw [h1, Int.toNat_natCast, h3, Int.toNat_natCast, hsx]
    · rw [h2, Int.toNat_natCast, h4, Int.toNat_natCast, hsy]

theorem valid_asmSize_nonneg (s : Image) (t : Int) (hv : ValidImage s) :
    0 ≤ (asmSize s t).1 ∧ 0 ≤ (asmSize s t).2 := by
  obtain ⟨-, -, -, -, hsx, hsy, hmx, hmy, -, -, -, -, -, -, -, -, -⟩ := id hv
  by_cases ht : t = 1
  · simp only [asmSize, if_pos ht]
    constructor
    · have h1 := Nat.mul_le_mul_left s.focalplane.numamps_x hmx
      have h2 := Nat.mul_add s.focalplane.numamps_x s.focalplane.numcols_underscan
        s.focalplane.numcols_overscan
      omega
    · have h1 := Nat.mul_le_mul_left s.focalplane.numamps_y hmy
      have h2 := Nat.mul_add s.focalplane.numamps_y s.focalplane.numrows_underscan
        s.focalplane.numrows_overscan
      omega
  · simp only [asmSize, if_neg ht]
    constructor <;> positivity

theorem valid_asmSize_int (s : Image) (t : Int) (hv : ValidImage s) :
    (asmSize s t).1 = ((s.focalplane.numamps_x * (asmCtx s t).dstAmpX.toNat : Nat) : Int) ∧
    (asmSize s t).2 = ((s.focalplane.numamps_y * (asmCtx s t).dstAmpY.toNat : Nat) : Int) := by
  obtain ⟨hszx, hszy⟩ := valid_asmSize s t hv
  obtain ⟨hn1, hn2⟩ := valid_asmSize_nonneg s t hv
  constructor <;> omega

set_option maxHeartbeats 1000000 in
/-- Master pixel characterization: running the main body of `assemble` on a
valid image writes at destination row `p*dstAmpY + l`, column `k*dstAmpX + j`
exactly the `j`-th calibrated pixel of the flip-dispatched segment of
amplifier slot `p*numamps_x + k` at source line `prescan2 + l`. -/
theorem assembleResult_val (s : Image) (t : Int) (hv : ValidImage s)
    (p l k j : Nat)
    (hp : p < s.focalplane.numamps_y)
    (hl : l < (asmCtx s t).dstAmpY.toNat)
    (hk : k < s.focalplane.numamps_x)
    (hj : j < (asmCtx s t).dstAmpX.toNat) :
    (assembleResult s t).buffer.val (p * (asmCtx s t).dstAmpY.toNat + l)
        (k * (asmCtx s t).dstAmpX.toNat + j)
      = (extSeg (asmCtx s t) (((asmCtx s t).prescan2 : Int) + l)
          (p * s.focalplane.numamps_x + k)).getD j 0 := by
  obtain ⟨-, -, hser, hpar, -, -, -, -, -, -, -, -, -, -, -, hbr, hbc⟩ := id hv
  have hll : (asmCtx s t).lineLen = (asmCtx s t).dstAmpX := rfl
  obtain ⟨hdx, hxx, hyy⟩ := valid_geom s t hv
  have hflips := valid_flips s t hv
  have hrowlen := valid_rowlen s t hv
  obtain ⟨hszx, hszy⟩ := valid_asmSize s t hv
  have hns : (asmCtx s t).num_ser = s.focalplane.numamps_x := hser
  have hnp : (asmCtx s t).num_par = s.focalplane.numamps_y := hpar
  have heslot : p * s.focalplane.numamps_x + k
      < (asmCtx s t).num_par * (asmCtx s t).num_ser := by
    rw [hns, hnp]
    exact slot_lt p k _ _ hp hk
  have hsl1 : ((asmCtx s t).prescan2 : Int) ≤ ((asmCtx s t).prescan2 : Int) + l := by omega
  have hsl2 : ((asmCtx s t).prescan2 : Int) + l
      < ((asmCtx s t).prescan2 : Int) + (asmCtx s t).dstAmpY := by omega
  have hlen := extSeg_length_full (asmCtx s t) (((asmCtx s t).prescan2 : Int) + l)
    (p * s.focalplane.numamps_x + k) (hflips _ heslot) (hrowlen _ heslot) hxx hdx hyy
    (fun h3 => valid_flip3_bound s t hv _ heslot h3) hsl1 hsl2
  rw [assembleResult_buffer]
  have hBrows : (assembleLoops (asmCtx s t) (asmBuf3 s t)).rows = (asmSize s t).2.toNat := by
    rw [assembleLoops_rows, asmBuf3_rows s t hbr]
  have hBcols : (assembleLoops (asmCtx s t) (asmBuf3 s t)).cols = (asmSize s t).1.toNat := by
    rw [assembleLoops_cols, asmBuf3_cols s t hbc]
  have hcol_lt : k * (asmCtx s t).dstAmpX.toNat + j < (asmSize s t).1.toNat := by
    rw [hszx]
    exact slot_lt k j _ _ hk hj
  rw [show (asmSize s t).2.toNat = (assembleLoops (asmCtx s t) (asmBuf3 s t)).rows
      from hBrows.symm,
    show (asmSize s t).1.toNat = (assembleLoops (asmCtx s t) (asmBuf3 s t)).cols
      from hBcols.symm]
  rw [reshape_self_val _ _ _ (by rw [hBcols]; exact hcol_lt)]
  have hread := assembleLoops_read (asmCtx s t) (asmBuf3 s t) hll hdx hflips p l k j
    (by rw [hnp]; exact hp) hl (by rw [hns]; exact hk)
    (by rw [hns, hlen]; exact hj)
    (by rw [asmBuf3_cols s t hbc]; exact hcol_lt)
  rw [hns] at hread
  exact hread

theorem ctx_nat_eq (s : Image) (t : Int) (hv : ValidImage s)
    (p1 o1v p2 o2v dX dY : Nat)
    (hp1 : p1 = (if t = 1 then s.focalplane.numcols_underscan else 0))
    (ho1 : o1v = (if t = 1 then s.focalplane.numcols_overscan else 0))
    (hp2 : p2 = (if t = 1 then s.focalplane.numrows_underscan else 0))
    (ho2 : o2v = (if t = 1 then s.focalplane.numrows_overscan else 0))
    (hdX : dX = s.focalplane.numcols_amp - p1 - o1v)
    (hdY : dY = s.focalplane.numrows_amp - p2 - o2v) :
    (asmCtx s t).prescan1 = p1 ∧ (asmCtx s t).prescan2 = p2 ∧
    (asmCtx s t).overscan2 = o2v ∧
    (asmCtx s t).dstAmpX = (dX : Int) ∧ (asmCtx s t).dstAmpY = (dY : Int) ∧
    (asmCtx s t).dstAmpX.toNat = dX ∧ (asmCtx s t).dstAmpY.toNat = dY := by
  obtain ⟨-, -, -, -, -, -, hmx, hmy, -, -, -, -, -, -, -, -, -⟩ := id hv
  subst hp1 ho1 hp2 ho2 hdX hdY
  by_cases ht : t = 1
  · simp only [asmCtx, if_pos ht]
    refine ⟨trivial, trivial, trivial, by omega, by omega, by omega, by omega⟩
  · simp only [asmCtx, if_neg ht]
    refine ⟨trivial, trivial, trivial, by omega, by omega, by omega, by omega⟩

set_option maxHeartbeats 1000000 in
/-- Explicit master characterization: the value written at destination row
`p*dY + l`, column `k*dX + j` is the calibrated raw pixel selected by the
flip code of the amplifier of slot `e = p*numamps_x + k`, with the exact
source positions of the four flip branches of `Image.assemble`. -/
theorem assembleResult_val_explicit (s : Image) (t : Int) (hv : ValidImage s)
    (p1 o1v p2 o2v dX dY : Nat)
    (hp1 : p1 = (if t = 1 then s.focalplane.numcols_underscan else 0))
    (ho1 : o1v = (if t = 1 then s.focalplane.numcols_overscan else 0))
    (hp2 : p2 = (if t = 1 then s.focalplane.numrows_underscan else 0))
    (ho2 : o2v = (if t = 1 then s.focalplane.numrows_overscan else 0))
    (hdX : dX = s.focalplane.numcols_amp - p1 - o1v)
    (hdY : dY = s.focalplane.numrows_amp - p2 - o2v)
    (p l k j e : Nat)
    (he : e = p * s.focalplane.numamps_x + k)
    (hp : p < s.focalplane.numamps_y) (hl : l < dY)
    (hk : k < s.focalplane.numamps_x) (hj : j < dX) :
    (assembleResult s t).buffer.val (p * dY + l) (k * dX + j)
      = ((ampRow s e).getD
          (if ampFlip s e = 0 then (p2 + l) * s.focalplane.numcols_amp + p1 + j
           else if ampFlip s e = 1 then
             (p2 + l) * s.focalplane.numcols_amp + p1 + (dX - 1 - j)
           else if ampFlip s e = 2 then
             (s.focalplane.numrows_amp - (p2 + l) - o2v - 1) * s.focalplane.numcols_amp
               + p1 + j
           else
             (s.focalplane.numrows_amp - (p2 + l) - p2 - 1) * s.focalplane.numcols_amp
               + p1 + (dX - 1 - j)) 0
          - ampOffset s e) * ampScale s e := by
  obtain ⟨-, -, hser, hpar, -, -, hmx, hmy, -, -, -, -, -, -, -, -, -⟩ := id hv
  obtain ⟨hP1, hP2, hO2, hdXi, hdYi, hdXn, hdYn⟩ :=
    ctx_nat_eq s t hv p1 o1v p2 o2v dX dY hp1 ho1 hp2 ho2 hdX hdY
  obtain ⟨hdx, hxx, hyy⟩ := valid_geom s t hv
  have hflips := valid_flips s t hv
  have hrowlen := valid_rowlen s t hv
  have hns : (asmCtx s t).num_ser = s.focalplane.numamps_x := hser
  have hnp : (asmCtx s t).num_par = s.focalplane.numamps_y := hpar
  subst he
  have heslot : p * s.focalplane.numamps_x + k
      < (asmCtx s t).num_par * (asmCtx s t).num_ser := by
    rw [hns, hnp]
    exact slot_lt p k _ _ hp hk
  have hmaster := assembleResult_val s t hv p l k j hp (by rw [hdYn]; exact hl) hk
    (by rw [hdXn]; exact hj)
  rw [hdYn, hdXn] at hmaster
  rw [hmaster]
  have hsl1 : ((asmCtx s t).prescan2 : Int) ≤ ((asmCtx s t).prescan2 : Int) + l := by omega
  have hsl2 : ((asmCtx s t).prescan2 : Int) + l
      < ((asmCtx s t).prescan2 : Int) + (asmCtx s t).dstAmpY := by
    rw [hdYi]
    omega
  have hjfull : j < (asmCtx s t).dstAmpX.toNat := by rw [hdXn]; exact hj
  have hrowe := hrowlen _ heslot
  have hsrcX : (asmCtx s t).srcAmpX = s.focalplane.numcols_amp := rfl
  have hsrcY : (asmCtx s t).srcAmpY = s.focalplane.numrows_amp := rfl
  have hrowamp : rowAt (asmCtx s t) (p * s.focalplane.numamps_x + k)
      = ampRow s (p * s.focalplane.numamps_x + k) := rfl
  have hoffamp : offAt (asmCtx s t) (p * s.focalplane.numamps_x + k)
      = ampOffset s (p * s.focalplane.numamps_x + k) := rfl
  have hscamp : scAt (asmCtx s t) (p * s.focalplane.numamps_x + k)
      = ampScale s (p * s.focalplane.numamps_x + k) := rfl
  have hfle : flipAt (asmCtx s t) (p * s.focalplane.numamps_x + k) ≤ 3 := hflips _ heslot
  have hflamp : ampFlip s (p * s.focalplane.numamps_x + k)
      = flipAt (asmCtx s t) (p * s.focalplane.numamps_x + k) := rfl
  rcases (by omega :
      flipAt (asmCtx s t) (p * s.focalplane.numamps_x + k) = 0 ∨
      flipAt (asmCtx s t) (p * s.focalplane.numamps_x + k) = 1 ∨
      flipAt (asmCtx s t) (p * s.focalplane.numamps_x + k) = 2 ∨
      flipAt (asmCtx s t) (p * s.focalplane.numamps_x + k) = 3) with h0 | h1 | h2 | h3
  · rw [extSeg_getD_flip0 _ _ _ h0 hrowe hxx hdx hyy hsl1 hsl2 j hjfull]
    rw [hrowamp, hoffamp, hscamp]
    rw [show ampFlip s (p * s.focalplane.numamps_x + k) = 0 from hflamp.trans h0]
    rw [if_pos rfl]
    have hpos : ((((asmCtx s t).prescan2 : Int) + l) * (asmCtx s t).srcAmpX
        + (asmCtx s t).prescan1).toNat + j
        = (p2 + l) * s.focalplane.numcols_amp + p1 + j := by
      rw [hP1, hP2, hsrcX]
      have hcast : ((p2 : Int) + l) * (s.focalplane.numcols_amp : Int) + (p1 : Int)
          = (((p2 + l) * s.focalplane.numcols_amp + p1 : Nat) : Int) := by
        push_cast
        ring
      rw [hcast, Int.toNat_natCast]
    rw [hpos]
  · rw [extSeg_getD_flip1 _ _ _ h1 hrowe hxx hdx hyy hsl1 hsl2 j hjfull]
    rw [hrowamp, hoffamp, hscamp]
    rw [show ampFlip s (p * s.focalplane.numamps_x + k) = 1 from hflamp.trans h1]
    rw [if_neg (by omega), if_pos rfl]
    have hpos : ((((asmCtx s t).prescan2 : Int) + l) * (asmCtx s t).srcAmpX
        + (asmCtx s t).prescan1).toNat + ((asmCtx s t).dstAmpX.toNat - 1 - j)
        = (p2 + l) * s.focalplane.numcols_amp + p1 + (dX - 1 - j) := by
      rw [hP1, hP2, hsrcX, hdXn]
      have hcast : ((p2 : Int) + l) * (s.focalplane.numcols_amp : Int) + (p1 : Int)
          = (((p2 + l) * s.focalplane.numcols_amp + p1 : Nat) : Int) := by
        push_cast
        ring
      rw [hcast, Int.toNat_natCast]
    rw [hpos]
  · rw [extSeg_getD_flip2 _ _ _ h2 hrowe hxx hdx hyy hsl1 hsl2 j hjfull]
    rw [hrowamp, hoffamp, hscamp]
    rw [show ampFlip s (p * s.focalplane.numamps_x + k) = 2 from hflamp.trans h2]
    rw [if_neg (by omega), if_neg (by omega), if_pos rfl]
    have hpos : ((((asmCtx s t).srcAmpY : Int) - (((asmCtx s t).prescan2 : Int) + l)
          - (asmCtx s t).overscan2 - 1) * (asmCtx s t).srcAmpX
        + (asmCtx s t).prescan1).toNat + j
        = (s.focalplane.numrows_amp - (p2 + l) - o2v - 1) * s.focalplane.numcols_amp
            + p1 + j := by
      rw [hP1, hP2, hO2, hsrcX, hsrcY]
      have hrowidx : (s.focalplane.numrows_amp : Int) - ((p2 : Int) + l) - (o2v : Int) - 1
          = ((s.focalplane.numrows_amp - (p2 + l) - o2v - 1 : Nat) : Int) := by
        have hb : p2 + l + 1 + o2v ≤ s.focalplane.numrows_amp := by
          subst hp2 ho2 hdY
          split_ifs at hl ⊢ <;> omega
        omega
      rw [hrowidx]
      have hcast : ((s.focalplane.numrows_amp - (p2 + l) - o2v - 1 : Nat) : Int)
            * (s.focalplane.numcols_amp : Int) + (p1 : Int)
          = (((s.focalplane.numrows_amp - (p2 + l) - o2v - 1) * s.focalplane.numcols_amp
              + p1 : Nat) : Int) := by
        push_cast
        ring
      rw [hcast, Int.toNat_natCast]
    rw [hpos]
  · have hy3 := valid_flip3_bound s t hv _ heslot h3
    rw [extSeg_getD_flip3 _ _ _ h3 hrowe hxx hdx hyy hy3 hsl1 hsl2 j hjfull]
    rw [hrowamp, hoffamp, hscamp]
    rw [show ampFlip s (p * s.focalplane.numamps_x + k) = 3 from hflamp.trans h3]
    rw [if_neg (by omega), if_neg (by omega), if_neg (by omega)]
    have hpos : ((((asmCtx s t).srcAmpY : Int) - (((asmCtx s t).prescan2 : Int) + l)
          - (asmCtx s t).prescan2 - 1) * (asmCtx s t).srcAmpX
        + (asmCtx s t).prescan1).toNat + ((asmCtx s t).dstAmpX.toNat - 1 - j)
        = (s.focalplane.numrows_amp - (p2 + l) - p2 - 1) * s.focalplane.numcols_amp
            + p1 + (dX - 1 - j) := by
      rw [hP1, hP2, hsrcX, hsrcY, hdXn]
      have hrowidx : (s.focalplane.numrows_amp : Int) - ((p2 : Int) + l) - (p2 : Int) - 1
          = ((s.focalplane.numrows_amp - (p2 + l) - p2 - 1 : Nat) : Int) := by
        rw [hP2, hdYi] at hy3
        omega
      rw [hrowidx]
      have hcast : ((s.focalplane.numrows_amp - (p2 + l) - p2 - 1 : Nat) : Int)
            * (s.focalplane.numcols_amp : Int) + (p1 : Int)
          = (((s.focalplane.numrows_amp - (p2 + l) - p2 - 1) * s.focalplane.numcols_amp
              + p1 : Nat) : Int) := by
        push_cast
        ring
      rw [hcast, Int.toNat_natCast]
    rw [hpos]

theorem assemble_ok_flags (s : Image) (t : Int) (s' : Image) (ha : assemble s t = .ok s') :
    s'.is_valid = true ∧ s'.assembled = true := by
  rcases assemble_ok_cases s t s' ha with ⟨h1, h2, rfl⟩ | ⟨h1, -, rfl⟩
  · exact ⟨h1, h2⟩
  · exact ⟨by rw [assembleResult_is_valid]; exact h1, assembleResult_assembled s t⟩

/-! The verified claims. -/

/-- C1: for every valid image and every destination pixel written by
`assemble` (destination row `p*dY + l`, column `k*dX + j`, with `dX`/`dY`
the trim-dependent per-amplifier destination extents), the assembled value
equals `(raw_value - offset[amp]) * scale[amp]`, where `amp` is the
physical amplifier contributing that destination location (slot
`e = p*numamps_x + k` resolved through the readout order) and `raw_value`
is the raw pixel that amplifier's flip code selects - for all four flip
codes.  Pixel arithmetic is exact (rationals), abstracting only
floating-point rounding. -/
theorem assemble_calibration_linearity
    (s : Image) (t : Int) (s' : Image)
    (hv : ValidImage s) (ha : assemble s t = .ok s')
    (p1 o1v p2 o2v dX dY : Nat)
    (hp1 : p1 = (if t = 1 then s.focalplane.numcols_underscan else 0))
    (ho1 : o1v = (if t = 1 then s.focalplane.numcols_overscan else 0))
    (hp2 : p2 = (if t = 1 then s.focalplane.numrows_underscan else 0))
    (ho2 : o2v = (if t = 1 then s.focalplane.numrows_overscan else 0))
    (hdX : dX = s.focalplane.numcols_amp - p1 - o1v)
    (hdY : dY = s.focalplane.numrows_amp - p2 - o2v)
    (p l k j e : Nat)
    (he : e = p * s.focalplane.numamps_x + k)
    (hp : p < s.focalplane.numamps_y) (hl : l < dY)
    (hk : k < s.focalplane.numamps_x) (hj : j < dX) :
    s'.buffer.val (p * dY + l) (k * dX + j)
      = ((ampRow s e).getD
          (if ampFlip s e = 0 then (p2 + l) * s.focalplane.numcols_amp + p1 + j
           else if ampFlip s e = 1 then
             (p2 + l) * s.focalplane.numcols_amp + p1 + (dX - 1 - j)
           else if ampFlip s e = 2 then
             (s.focalplane.numrows_amp - (p2 + l) - o2v - 1) * s.focalplane.numcols_amp
               + p1 + j
           else
             (s.focalplane.numrows_amp - (p2 + l) - p2 - 1) * s.focalplane.numcols_amp
               + p1 + (dX - 1 - j)) 0
          - ampOffset s e) * ampScale s e := by
  rcases assemble_ok_cases s t s' ha with ⟨-, hasm, -⟩ | ⟨-, -, rfl⟩
  · exact absurd hasm (by simp [hv.2.1])
  exact assembleResult_val_explicit s t hv p1 o1v p2 o2v dX dY hp1 ho1 hp2 ho2 hdX hdY
    p l k j e he hp hl hk hj

theorem getD_range_map (f : Nat → Pix) (n i : Nat) (hi : i < n) :
    ((List.range n).map f).getD i 0 = f i := by
  rw [List.getD_eq_getElem _ _ (by simpa using hi), List.getElem_map, List.getElem_range]

theorem getD_map_take_drop (f : Pix → Pix) (row : List Pix) (st dX i : Nat)
    (hi : i < dX) (hb : st + dX ≤ row.length) :
    (((row.drop st).take dX).map f).getD i 0 = f (row.getD (st + i) 0) := by
  have hlen : (((row.drop st).take dX).map f).length = dX := by
    simp only [List.length_map, List.length_take, List.length_drop]
    omega
  rw [List.getD_eq_getElem _ _ (by omega), List.getElem_map, List.getElem_take,
    List.getElem_drop, List.getD_eq_getElem _ _ (by omega)]

theorem getD_rev_map_take_drop (f : Pix → Pix) (row : List Pix) (st dX i : Nat)
    (hi : i < dX) (hb : st + dX ≤ row.length) :
    ((((row.drop st).take dX).map f).reverse).getD i 0
      = f (row.getD (st + (dX - 1 - i)) 0) := by
  have hlen : (((row.drop st).take dX).map f).length = dX := by
    simp only [List.length_map, List.length_take, List.length_drop]
    omega
  rw [getD_reverse _ _ (by omega), hlen,
    getD_map_take_drop f row st dX _ (by omega) hb]

/-- C2: for every amplifier with flip code 0, each destination row segment
written by `assemble` equals - verbatim, after calibration - the source row
segment of length `dX = dstAmpCols` starting at column offset
`p1 = underscanCols` of the corresponding raw row; for flip code 1 it equals
the reverse of that same extracted segment.  The source row for flip codes 0
and 1 is `p2 + l` (`underscanRows + l`): it advances forward from
`underscanRows` in lock-step with the destination row within the parallel
group. -/
theorem assemble_flip01_row_segments
    (s : Image) (t : Int) (s' : Image)
    (hv : ValidImage s) (ha : assemble s t = .ok s')
    (p1 o1v p2 o2v dX dY : Nat)
    (hp1 : p1 = (if t = 1 then s.focalplane.numcols_underscan else 0))
    (ho1 : o1v = (if t = 1 then s.focalplane.numcols_overscan else 0))
    (hp2 : p2 = (if t = 1 then s.focalplane.numrows_underscan else 0))
    (ho2 : o2v = (if t = 1 then s.focalplane.numrows_overscan else 0))
    (hdX : dX = s.focalplane.numcols_amp - p1 - o1v)
    (hdY : dY = s.focalplane.numrows_amp - p2 - o2v)
    (p l k e : Nat)
    (he : e = p * s.focalplane.numamps_x + k)
    (hp : p < s.focalplane.numamps_y) (hl : l < dY)
    (hk : k < s.focalplane.numamps_x) :
    (ampFlip s e = 0 →
      destRowSeg s' (p * dY + l) k dX
        = (((ampRow s e).drop ((p2 + l) * s.focalplane.numcols_amp + p1)).take dX).map
            (fun v => (v - ampOffset s e) * ampScale s e)) ∧
    (ampFlip s e = 1 →
      destRowSeg s' (p * dY + l) k dX
        = ((((ampRow s e).drop ((p2 + l) * s.focalplane.numcols_amp + p1)).take dX).map
            (fun v => (v - ampOffset s e) * ampScale s e)).reverse) := by
  rcases assemble_ok_cases s t s' ha with ⟨-, hasm, -⟩ | ⟨-, -, rfl⟩
  · exact absurd hasm (by simp [hv.2.1])
  obtain ⟨-, -, hser, hpar, -, -, hmx, hmy, -, -, -, -, -, -, -, -, -⟩ := id hv
  have heslot : e < (asmCtx s t).num_par * (asmCtx s t).num_ser := by
    have h1 : (asmCtx s t).num_ser = s.focalplane.numamps_x := hser
    have h2 : (asmCtx s t).num_par = s.focalplane.numamps_y := hpar
    rw [h1, h2, he]
    exact slot_lt p k _ _ hp hk
  have hrowlen : (ampRow s e).length
      = s.focalplane.numrows_amp * s.focalplane.numcols_amp :=
    valid_rowlen s t hv e heslot
  have hb1 : p2 + l + 1 ≤ s.focalplane.numrows_amp := by
    have hll : l < s.focalplane.numrows_amp - p2 - o2v := hdY ▸ hl
    rw [hp2, ho2] at hll
    rw [hp2]
    split_ifs at hll ⊢ <;> omega
  have hb2 : p1 + dX ≤ s.focalplane.numcols_amp := by
    have hdx := hdX
    rw [hp1, ho1] at hdx
    rw [hp1, hdx]
    split_ifs <;> omega
  have hst : (p2 + l) * s.focalplane.numcols_amp + p1 + dX
      ≤ s.focalplane.numrows_amp * s.focalplane.numcols_amp := by
    have hsucc : (p2 + l + 1) * s.focalplane.numcols_amp
        = (p2 + l) * s.focalplane.numcols_amp + s.focalplane.numcols_amp := by
      ring
    have hmul := Nat.mul_le_mul_right s.focalplane.numcols_amp hb1
    omega
  constructor
  · intro hf0
    apply List.ext_getElem
    · simp only [destRowSeg, List.length_map, List.length_range, List.length_take,
        List.length_drop, hrowlen]
      omega
    · intro i h1 h2
      have hi : i < dX := by simpa [destRowSeg] using h1
      rw [← List.getD_eq_getElem _ 0 h1, ← List.getD_eq_getElem _ 0 h2]
      have hL : (destRowSeg (assembleResult s t) (p * dY + l) k dX).getD i 0
          = (assembleResult s t).buffer.val (p * dY + l) (k * dX + i) := by
        unfold destRowSeg
        exact getD_range_map _ dX i hi
      rw [hL,
        getD_map_take_drop (fun v => (v - ampOffset s e) * ampScale s e)
          (ampRow s e) ((p2 + l) * s.focalplane.numcols_amp + p1) dX i hi (by omega)]
      rw [assembleResult_val_explicit s t hv p1 o1v p2 o2v dX dY hp1 ho1 hp2 ho2
        hdX hdY p l k i e he hp hl hk hi]
      rw [hf0, if_pos rfl]
  · intro hf1
    apply List.ext_getElem
    · simp only [destRowSeg, List.length_map, List.length_range, List.length_reverse,
        List.length_take, List.length_drop, hrowlen]
      omega
    · intro i h1 h2
      have hi : i < dX := by simpa [destRowSeg] using h1
      rw [← List.getD_eq_getElem _ 0 h1, ← List.getD_eq_getElem _ 0 h2]
      have hL : (destRowSeg (assembleResult s t) (p * dY + l) k dX).getD i 0
          = (assembleResult s t).buffer.val (p * dY + l) (k * dX + i) := by
        unfold destRowSeg
        exact getD_range_map _ dX i hi
      rw [hL,
        getD_rev_map_take_drop (fun v => (v - ampOffset s e) * ampScale s e)
          (ampRow s e) ((p2 + l) * s.focalplane.numcols_amp + p1) dX i hi (by omega)]
      rw [assembleResult_val_explicit s t hv p1 o1v p2 o2v dX dY hp1 ho1 hp2 ho2
        hdX hdY p l k i e he hp hl hk hi]
      rw [hf1, if_neg (by decide), if_pos rfl]

/-- C3: for every amplifier with a vertical-mirror flip code, `assemble`
computes the mirrored source row with different margin terms for the two
codes: for flip code 2 the source row index is
`ampRows - srcLine - overscanRows - 1`, while for flip code 3 it is
`ampRows - srcLine - underscanRows - 1`, where `srcLine = underscanRows + l`
starts at `underscanRows` and advances with the destination row; flip 3
additionally reverses the column segment (position `dX - 1 - j` instead of
`j`).  The two formulas are preserved distinctly. -/
theorem assemble_vertical_mirror_rows
    (s : Image) (t : Int) (s' : Image)
    (hv : ValidImage s) (ha : assemble s t = .ok s')
    (p1 o1v p2 o2v dX dY : Nat)
    (hp1 : p1 = (if t = 1 then s.focalplane.numcols_underscan else 0))
    (ho1 : o1v = (if t = 1 then s.focalplane.numcols_overscan else 0))
    (hp2 : p2 = (if t = 1 then s.focalplane.numrows_underscan else 0))
    (ho2 : o2v = (if t = 1 then s.focalplane.numrows_overscan else 0))
    (hdX : dX = s.focalplane.numcols_amp - p1 - o1v)
    (hdY : dY = s.focalplane.numrows_amp - p2 - o2v)
    (p l k j e : Nat)
    (he : e = p * s.focalplane.numamps_x + k)
    (hp : p < s.focalplane.numamps_y) (hl : l < dY)
    (hk : k < s.focalplane.numamps_x) (hj : j < dX) :
    (ampFlip s e = 2 →
      s'.buffer.val (p * dY + l) (k * dX + j)
        = ((ampRow s e).getD
            ((s.focalplane.numrows_amp - (p2 + l) - o2v - 1) * s.focalplane.numcols_amp
              + p1 + j) 0
            - ampOffset s e) * ampScale s e) ∧
    (ampFlip s e = 3 →
      s'.buffer.val (p * dY + l) (k * dX + j)
        = ((ampRow s e).getD
            ((s.focalplane.numrows_amp - (p2 + l) - p2 - 1) * s.focalplane.numcols_amp
              + p1 + (dX - 1 - j)) 0
            - ampOffset s e) * ampScale s e) := by
  rcases assemble_ok_cases s t s' ha with ⟨-, hasm, -⟩ | ⟨-, -, rfl⟩
  · exact absurd hasm (by simp [hv.2.1])
  have hval := assembleResult_val_explicit s t hv p1 o1v p2 o2v dX dY hp1 ho1 hp2 ho2
    hdX hdY p l k j e he hp hl hk hj
  constructor
  · intro h2
    rw [hval, h2]
    rw [if_neg (by omega), if_neg (by omega), if_pos rfl]
  · intro h3
    rw [hval, h3]
    rw [if_neg (by omega), if_neg (by omega), if_neg (by omega)]

/-- C4: for every valid geometry, after a successful `assemble` the recorded
assembled size `asmsize` equals `(ampGridX*dstAmpCols, ampGridY*dstAmpRows)`
where, with trimming requested, `dstAmpCols = ampCols - under - over` (and
similarly for rows), and without trimming the raw amplifier extents; the
assembled buffer is reshaped to `(assembledRows, assembledCols)`. -/
theorem assemble_assembled_size
    (s : Image) (t : Int) (s' : Image)
    (hv : ValidImage s) (ha : assemble s t = .ok s')
    (dX dY : Nat)
    (hdX : dX = (if t = 1 then
        s.focalplane.numcols_amp - s.focalplane.numcols_underscan
          - s.focalplane.numcols_overscan
      else s.focalplane.numcols_amp))
    (hdY : dY = (if t = 1 then
        s.focalplane.numrows_amp - s.focalplane.numrows_underscan
          - s.focalplane.numrows_overscan
      else s.focalplane.numrows_amp)) :
    s'.asmsize = (((s.focalplane.numamps_x * dX : Nat) : Int),
                  ((s.focalplane.numamps_y * dY : Nat) : Int)) ∧
    s'.buffer.rows = s.focalplane.numamps_y * dY ∧
    s'.buffer.cols = s.focalplane.numamps_x * dX := by
  rcases assemble_ok_cases s t s' ha with ⟨-, hasm, -⟩ | ⟨-, -, rfl⟩
  · exact absurd hasm (by simp [hv.2.1])
  have hdXn : (asmCtx s t).dstAmpX.toNat = dX := by
    by_cases ht : t = 1
    · have h : (asmCtx s t).dstAmpX = (s.focalplane.numcols_amp : Int)
          - s.focalplane.numcols_underscan - s.focalplane.numcols_overscan := by
        simp [asmCtx, if_pos ht]
      rw [hdX, if_pos ht]
      omega
    · have h : (asmCtx s t).dstAmpX = (s.focalplane.numcols_amp : Int) := by
        simp [asmCtx, if_neg ht]
      rw [hdX, if_neg ht]
      omega
  have hdYn : (asmCtx s t).dstAmpY.toNat = dY := by
    by_cases ht : t = 1
    · have h : (asmCtx s t).dstAmpY = (s.focalplane.numrows_amp : Int)
          - s.focalplane.numrows_underscan - s.focalplane.numrows_overscan := by
        simp [asmCtx, if_pos ht]
      rw [hdY, if_pos ht]
      omega
    · have h : (asmCtx s t).dstAmpY = (s.focalplane.numrows_amp : Int) := by
        simp [asmCtx, if_neg ht]
      rw [hdY, if_neg ht]
      omega
  obtain ⟨h1, h2⟩ := valid_asmSize_int s t hv
  refine ⟨?_, ?_, ?_⟩
  · rw [assembleResult_asmsize]
    exact Prod.ext (by rw [h1, hdXn]) (by rw [h2, hdYn])
  · rw [assembleResult_buffer, reshape_rows, (valid_asmSize s t hv).2, hdYn]
  · rw [assembleResult_buffer, reshape_cols, (valid_asmSize s t hv).1, hdXn]

/-- C5: on every image on which `assemble` has already succeeded, any further
call to `assemble` - with any trim argument, and even after the calibration
arrays `scales`/`offsets` have been replaced - is a no-op: it returns
immediately with the state (buffer, asmsize and all flags) bit-for-bit
unchanged. -/
theorem assemble_noop_after_success (s : Image) (t t' : Int) (s' : Image)
    (g o : List Pix) (ha : assemble s t = .ok s') :
    assemble { s' with scales := g, offsets := o } t'
      = .ok { s' with scales := g, offsets := o } := by
  obtain ⟨h1, h2⟩ := assemble_ok_flags s t s' ha
  have hval : ({ s' with scales := g, offsets := o } : Image).is_valid = true := h1
  have hasm : ({ s' with scales := g, offsets := o } : Image).assembled = true := h2
  unfold assemble
  rw [if_neg (by rw [hval]; simp), if_pos hasm]

/-- C6: for every image whose raw data is not marked valid, `assemble`
raises `AzcamError("image is not valid")` (the spec's `NotReadyError`)
before doing anything else; the state carried with the error is the entry
state itself, so all prior state - buffer, asmsize and flags - is untouched
and `assembled` remains unset. -/
theorem assemble_invalid_raises (s : Image) (t : Int) (h : s.is_valid = false) :
    assemble s t = .error (.azcamError "image is not valid", s) := by
  unfold assemble
  rw [if_pos h]

/-- C7 (amended): `assemble` performs no flip-code validation at all - the
only failure mode is the `is_valid` guard.  On an image containing an
amplifier with a flip code outside {0,1,2,3}, the call completes
successfully (no `InvalidFlipCodeError` exists in the code); the four flip
branches simply all fail to match, so that amplifier's segments are skipped. -/
theorem assemble_no_flip_validation (s : Image) (t : Int) (h : s.is_valid = true) :
    (assemble s t).isOk = true := by
  unfold assemble
  rw [if_neg (by rw [h]; simp)]
  by_cases h2 : s.assembled = true
  · rw [if_pos h2]
    rfl
  · rw [if_neg h2]
    rfl

/-- C7 (counterexample to the claim as stated): on a valid image whose only
amplifier carries flip code 4, `assemble` does not fail - it completes and
sets the `assembled` flag. -/
theorem assemble_flip4_completes :
    (assemble img7 0).toOption.map Image.assembled = some true := by
  decide

theorem setScaling_fold_ok (g o : List Pix) :
    ∀ (n : Nat) (u : Image), n ≤ g.length → n ≤ o.length →
      n ≤ u.scales.length → n ≤ u.offsets.length →
      ∃ w : Image,
        (List.range n).foldl
            (fun (acc : Except (PyError × Image) Image) chan =>
              acc.bind (setScalingStep g o chan)) (Except.ok u)
          = Except.ok w ∧
        w.scales.length = u.scales.length ∧ w.offsets.length = u.offsets.length := by
  intro n
  induction n with
  | zero => intro u _ _ _ _; exact ⟨u, rfl, rfl, rfl⟩
  | succ n ih =>
    intro u hg ho hs hof
    obtain ⟨w, hw, hws, hwo⟩ := ih u (by omega) (by omega) (by omega) (by omega)
    rw [List.range_succ, List.foldl_append, hw, List.foldl_cons, List.foldl_nil]
    have hstep : setScalingStep g o n w
        = Except.ok { w with
            scales := w.scales.set n (g.getD n 0)
            offsets := w.offsets.set n (o.getD n 0) } := by
      simp only [setScalingStep]
      rw [if_pos (show n < g.length by omega), if_pos (show n < w.scales.length by omega),
        if_pos (show n < o.length by omega), if_pos (show n < w.offsets.length by omega)]
    refine ⟨{ w with
        scales := w.scales.set n (g.getD n 0)
        offsets := w.offsets.set n (o.getD n 0) }, ?_, ?_, ?_⟩
    · show Except.bind (Except.ok w) (setScalingStep g o n) = _
      rw [show Except.bind (Except.ok w) (setScalingStep g o n)
          = setScalingStep g o n w from rfl, hstep]
    · simp [List.length_set, hws]
    · simp [List.length_set, hwo]

/-- C8 (amended): `set_scaling` never compares the lengths of `gains` and
`offsets` - there is no `LengthMismatchError` in the code.  Whenever both
sequences cover the `len(self.data)` channels that the loop visits (and the
amplifier count covers them as well), the call succeeds even when the two
sequences have different lengths: extra values are silently ignored.  (A
sequence shorter than `len(self.data)` instead surfaces as a plain
`IndexError`.) -/
theorem set_scaling_no_length_check (s : Image) (g o : List Pix)
    (hn : s.data.length ≤ s.focalplane.numamps_image)
    (hg : s.data.length ≤ g.length) (ho : s.data.length ≤ o.length) :
    (set_scaling s (some g) (some o)).isOk = true := by
  unfold set_scaling
  simp only [Option.getD]
  obtain ⟨w, hw, -, -⟩ := setScaling_fold_ok g o s.data.length
    { s with
      num_extensions := s.focalplane.numamps_image
      scales := List.replicate s.focalplane.numamps_image 1
      offsets := List.replicate s.focalplane.numamps_image 0 }
    hg ho (by simpa using hn) (by simpa using hn)
  rw [hw]
  rfl

/-- C8 (counterexample to the claim as stated): with one data channel,
`gains = [2, 3]` and `offsets = [5]` are both non-empty with differing
lengths, yet `set_scaling` succeeds, silently truncating to the channel
count - no `LengthMismatchError` is raised. -/
theorem set_scaling_mismatch_truncates :
    (set_scaling img8 (some [2, 3]) (some [5])).toOption.map
        (fun u => (u.scales, u.offsets)) = some ([2], [5]) := by
  decide

/-- C9: calling `assemble` with the sentinel default `trim = -1` never
consults the stored `self.trim` attribute and behaves exactly as the
untrimmed path (`trim = 0`): for every image and every stored `trim` value
`b`, the result is that of an untrimmed assemble, with the stored attribute
passed through untouched. -/
theorem assemble_sentinel_untrimmed (s : Image) (b : Int) :
    assemble { s with trim := b } (-1)
      = mapState (fun u => { u with trim := b }) (assemble s 0) := by
  have hres : assembleResult { s with trim := b } (-1)
      = { assembleResult s 0 with trim := b } := rfl
  unfold assemble
  by_cases h1 : s.is_valid = false
  · rw [if_pos (show ({ s with trim := b } : Image).is_valid = false from h1), if_pos h1]
    rfl
  · rw [if_neg (show ¬(({ s with trim := b } : Image).is_valid = false) from h1),
      if_neg h1]
    by_cases h2 : s.assembled = true
    · rw [if_pos (show ({ s with trim := b } : Image).assembled = true from h2),
        if_pos h2]
      rfl
    · rw [if_neg (show ¬(({ s with trim := b } : Image).assembled = true) from h2),
        if_neg h2]
      rw [show mapState (fun u => ({ u with trim := b } : Image))
          (.ok (assembleResult s 0)) = .ok { assembleResult s 0 with trim := b } from rfl]
      rw [hres]

/-- C10 (amended): after every successful call to `assemble` the `assembled`
flag is set; the `trimmed` flag is set to true when trimming was applied in
that call, but an untrimmed assemble leaves `trimmed` at its previous value
- the flag is never cleared, so it remains true if a previous trimmed
assembly set it (reading new raw data resets `assembled` but not
`trimmed`). -/
theorem assemble_flag_update (s : Image) (t : Int) (s' : Image)
    (ha : assemble s t = .ok s') :
    s'.assembled = true ∧
    (s.assembled = false → s'.trimmed = (if t = 1 then true else s.trimmed)) := by
  rcases assemble_ok_cases s t s' ha with ⟨-, h2, rfl⟩ | ⟨-, -, rfl⟩
  · exact ⟨h2, fun h => absurd h2 (by simp [h])⟩
  · exact ⟨assembleResult_assembled s t, fun _ => assembleResult_trimmed s t⟩

/-- C10 (counterexample to the claim as stated): an untrimmed successful
assemble of a valid image whose `trimmed` flag is still true from an earlier
trimmed assembly leaves `trimmed = true`, although trimming was not applied
in that call. -/
theorem assemble_trimmed_flag_sticky :
    (assemble img10 0).toOption.map Image.trimmed = some true := by
  decide

/-! Witnesses: each hypothesis-bearing claim theorem applied at a concrete
state. -/

theorem assemble_calibration_linearity_witness :
    ValidImage imgA ∧
    (assembleResult imgA 1).buffer.val (0 * 1 + 0) (0 * 2 + 1)
      = ((ampRow imgA 0).getD
          (if ampFlip imgA 0 = 0 then (0 + 0) * imgA.focalplane.numcols_amp + 1 + 1
           else if ampFlip imgA 0 = 1 then
             (0 + 0) * imgA.focalplane.numcols_amp + 1 + (2 - 1 - 1)
           else if ampFlip imgA 0 = 2 then
             (imgA.focalplane.numrows_amp - (0 + 0) - 1 - 1) * imgA.focalplane.numcols_amp
               + 1 + 1
           else
             (imgA.focalplane.numrows_amp - (0 + 0) - 0 - 1) * imgA.focalplane.numcols_amp
               + 1 + (2 - 1 - 1)) 0
          - ampOffset imgA 0) * ampScale imgA 0 :=
  ⟨by unfold ValidImage; decide,
    assemble_calibration_linearity imgA 1 (assembleResult imgA 1) (by unfold ValidImage; decide) rfl
      1 0 0 1 2 1 rfl rfl rfl rfl rfl rfl 0 0 0 1 0 rfl (by decide) (by decide) (by decide)
      (by decide)⟩

theorem assemble_flip01_row_segments_witness :
    ValidImage imgA ∧
    ((ampFlip imgA 1 = 0 →
      destRowSeg (assembleResult imgA 1) (0 * 1 + 0) 1 2
        = (((ampRow imgA 1).drop ((0 + 0) * imgA.focalplane.numcols_amp + 1)).take 2).map
            (fun v => (v - ampOffset imgA 1) * ampScale imgA 1)) ∧
     (ampFlip imgA 1 = 1 →
      destRowSeg (assembleResult imgA 1) (0 * 1 + 0) 1 2
        = ((((ampRow imgA 1).drop ((0 + 0) * imgA.focalplane.numcols_amp + 1)).take 2).map
            (fun v => (v - ampOffset imgA 1) * ampScale imgA 1)).reverse)) :=
  ⟨by unfold ValidImage; decide,
    assemble_flip01_row_segments imgA 1 (assembleResult imgA 1) (by unfold ValidImage; decide) rfl
      1 0 0 1 2 1 rfl rfl rfl rfl rfl rfl 0 0 1 1 rfl (by decide) (by decide) (by decide)⟩

theorem assemble_vertical_mirror_rows_witness :
    ValidImage imgA ∧
    ((ampFlip imgA 2 = 2 →
      (assembleResult imgA 1).buffer.val (1 * 1 + 0) (0 * 2 + 0)
        = ((ampRow imgA 2).getD
            ((imgA.focalplane.numrows_amp - (0 + 0) - 1 - 1) * imgA.focalplane.numcols_amp
              + 1 + 0) 0
            - ampOffset imgA 2) * ampScale imgA 2) ∧
     (ampFlip imgA 2 = 3 →
      (assembleResult imgA 1).buffer.val (1 * 1 + 0) (0 * 2 + 0)
        = ((ampRow imgA 2).getD
            ((imgA.focalplane.numrows_amp - (0 + 0) - 0 - 1) * imgA.focalplane.numcols_amp
              + 1 + (2 - 1 - 0)) 0
            - ampOffset imgA 2) * ampScale imgA 2)) :=
  ⟨by unfold ValidImage; decide,
    assemble_vertical_mirror_rows imgA 1 (assembleResult imgA 1) (by unfold ValidImage; decide) rfl
      1 0 0 1 2 1 rfl rfl rfl rfl rfl rfl 1 0 0 0 2 rfl (by decide) (by decide) (by decide)
      (by decide)⟩

theorem assemble_assembled_size_witness :
    ValidImage imgA ∧
    (assembleResult imgA 1).asmsize
        = (((imgA.focalplane.numamps_x * 2 : Nat) : Int),
           ((imgA.focalplane.numamps_y * 1 : Nat) : Int)) ∧
    (assembleResult imgA 1).buffer.rows = imgA.focalplane.numamps_y * 1 ∧
    (assembleResult imgA 1).buffer.cols = imgA.focalplane.numamps_x * 2 :=
  ⟨by unfold ValidImage; decide,
    assemble_assembled_size imgA 1 (assembleResult imgA 1) (by unfold ValidImage; decide) rfl 2 1 rfl rfl⟩

theorem assemble_noop_after_success_witness :
    assemble { assembleResult imgA 1 with scales := [5, 5, 5, 5], offsets := [1, 1, 1, 1] } 0
      = .ok { assembleResult imgA 1 with scales := [5, 5, 5, 5], offsets := [1, 1, 1, 1] } :=
  assemble_noop_after_success imgA 1 0 (assembleResult imgA 1) [5, 5, 5, 5] [1, 1, 1, 1] rfl

theorem assemble_invalid_raises_witness :
    img6.is_valid = false ∧
    assemble img6 0 = .error (.azcamError "image is not valid", img6) :=
  ⟨rfl, assemble_invalid_raises img6 0 rfl⟩

theorem assemble_no_flip_validation_witness :
    img7.is_valid = true ∧ (assemble img7 0).isOk = true :=
  ⟨rfl, assemble_no_flip_validation img7 0 rfl⟩

theorem set_scaling_no_length_check_witness :
    img8.data.length ≤ img8.focalplane.numamps_image ∧
    img8.data.length ≤ ([2, 3] : List Pix).length ∧
    img8.data.length ≤ ([5] : List Pix).length ∧
    (set_scaling img8 (some [2, 3]) (some [5])).isOk = true :=
  ⟨by decide, by decide, by decide,
    set_scaling_no_length_check img8 [2, 3] [5] (by decide) (by decide) (by decide)⟩

theorem assemble_flag_update_witness :
    (assembleResult img10 0).assembled = true ∧
    (img10.assembled = false →
      (assembleResult img10 0).trimmed = (if (0 : Int) = 1 then true else img10.trimmed)) :=
  assemble_flag_update img10 0 (assembleResult img10 0) rfl

end Azcam
